import Mathlib

/-!
# Cooperative scheduler (`Scheduler.cpp`): a shallow embedding

The scheduler keeps a circular, doubly linked run queue of task records, a
pointer to the running task and a high-water mark `s_top` into the stack
arena.  The embedding below follows `Scheduler.cpp` statement by statement.

* Addresses, `size_t` values and function pointers are natural numbers;
  `NULL` is `0`.  `size_t` and `int` arithmetic is taken modulo `2 ^ bits`.
* Task records live in a memory `Nat → task_t`; the record of the main task
  lives at the address `Config.s_main`.
* The three build variants of the file (`ARDUINO_ARCH_AVR`, the ARM family
  `ARDUINO_ARCH_SAM` / `ARDUINO_ARCH_SAMD` / `TEENSY_ARCH_ARM`, and `ESP8266`)
  are selected by `Config.arch`.
* Constants of `Scheduler.h` (`DEFAULT_STACK_SIZE`, `STACK_MAX`,
  `sizeof(task_t)`) are parameters in `Config`.
* Values that the compiler and the C library decide (the address of the
  variable length array `stack` in `start`, the address of the local record
  `task` in `init`, `__brkval`, `&__heap_start`, `__malloc_margin`) are inputs
  of a single call, collected in `Env`.
* Along a sequence of calls the two addresses are not free: lines 83-84 put
  the array at `RAMEND - s_top` and the frame of `init` follows below it, so
  `envOf` computes them from `s_top` and the stack depth of the caller, and
  `runOps` performs every call in the environment it meets.
-/

namespace Scheduler

/-- Function pointers (`func_t`); `NULL` is the absent function. -/
abbrev func_t := Nat

/-- The null pointer. -/
def NULL : Nat := 0

/-- Build variants distinguished by the preprocessor branches of the file. -/
inductive Arch where
  | AVR
  | ARM
  | ESP8266
  deriving DecidableEq, Repr

/-- Constants supplied by `Scheduler.h` and the target. -/
structure Config where
  /-- Selected preprocessor branch. -/
  arch : Arch
  /-- Width of `size_t`, `int` and pointers in bits. -/
  bits : Nat
  /-- Value of `sizeof(task_t)`. -/
  sizeofTask : Nat
  /-- Value of `STACK_MAX` (ARM family only). -/
  STACK_MAX : Nat
  /-- Value of `DEFAULT_STACK_SIZE`. -/
  DEFAULT_STACK_SIZE : Nat
  /-- Address of the static record `s_main`. -/
  s_main : Nat
  /-- Value of `RAMEND`, the top of the stack arena. -/
  RAMEND : Nat

/-- Modulus of `size_t` arithmetic. -/
def Config.W (cfg : Config) : Nat := 2 ^ cfg.bits

/-- Contents of a `jmp_buf`: where a `longjmp` to it continues. -/
inductive Context where
  /-- The zero initialised buffer of `s_main`. -/
  | zero
  /-- Saved by `setjmp(task.context)` in `init`, with the arguments in scope. -/
  | atInit (setup loop : func_t)
  /-- Saved by `setjmp(s_running->context)` in `yield`. -/
  | atYield
  deriving DecidableEq, Repr

/-- A task record (`task_t`). -/
structure task_t where
  next : Nat
  prev : Nat
  context : Context
  stack : Nat
  deriving DecidableEq, Repr

/-- The mutable globals the scheduler reads and writes. -/
structure Sched where
  /-- Task records by address. -/
  mem : Nat → task_t
  /-- The pointer `s_running`. -/
  s_running : Nat
  /-- The mark `s_top`. -/
  s_top : Nat
  /-- The C library variable `__malloc_heap_end` (AVR only). -/
  malloc_heap_end : Nat

/-- Values decided outside the scheduler at a call of `start`. -/
structure Env where
  /-- Address of the variable length array `stack` (lines 83-84). -/
  stack : Nat
  /-- Address of the local record `task` of `init` (line 149). -/
  task : Nat
  /-- Value of `__brkval`. -/
  brkval : Nat
  /-- Address of `__heap_start`. -/
  heap_start : Nat
  /-- Value of `__malloc_margin`. -/
  malloc_margin : Nat

/-- Store a record at an address. -/
def setTask (mem : Nat → task_t) (a : Nat) (v : task_t) : Nat → task_t :=
  fun x => if x = a then v else mem x

/-- The static initialiser of `s_main`, `s_running` and `s_top` (lines 49-64);
`garbage` is the content of the memory not yet written. -/
def initial (cfg : Config) (garbage : Nat → task_t) (heapEnd : Nat) : Sched :=
  { mem := setTask garbage cfg.s_main
      { next := cfg.s_main, prev := cfg.s_main, context := Context.zero, stack := NULL }
    s_running := cfg.s_main
    s_top := cfg.DEFAULT_STACK_SIZE
    malloc_heap_end := heapEnd }

/-- `SchedulerClass::begin` (lines 66-71). -/
def begin (_cfg : Config) (s : Sched) (stackSize : Nat) : Bool × Sched :=
  (true, { s with s_top := stackSize })

/-- Assignment `a->next = v`. -/
def setNext (mem : Nat → task_t) (a v : Nat) : Nat → task_t :=
  setTask mem a { mem a with next := v }

/-- Assignment `a->prev = v`. -/
def setPrev (mem : Nat → task_t) (a v : Nat) : Nat → task_t :=
  setTask mem a { mem a with prev := v }

/-- Assignment `a->stack = v`. -/
def setStack (mem : Nat → task_t) (a v : Nat) : Nat → task_t :=
  setTask mem a { mem a with stack := v }

/-- The effect of `setjmp(a->context)` on the buffer. -/
def setContext (mem : Nat → task_t) (a : Nat) (c : Context) : Nat → task_t :=
  setTask mem a { mem a with context := c }

/-- `SchedulerClass::init` (lines 146-165); `task` is the address of the local
record. -/
def init (cfg : Config) (s : Sched) (setup loop : func_t) (stack : Nat) (task : Nat) :
    Sched :=
  -- task.next = &s_main;
  let m1 := setNext s.mem task cfg.s_main
  -- task.prev = s_main.prev;
  let m2 := setPrev m1 task (m1 cfg.s_main).prev
  -- s_main.prev->next = &task;
  let m3 := setNext m2 (m2 cfg.s_main).prev task
  -- s_main.prev = &task;
  let m4 := setPrev m3 cfg.s_main task
  match cfg.arch with
  | Arch.ESP8266 => { s with mem := m4 }
  | _ =>
    -- task.stack = stack;
    let m5 := setStack m4 task stack
    -- setjmp(task.context) returns 0 to the caller
    let m6 := setContext m5 task (Context.atInit setup loop)
    { s with mem := m6 }

/-- Signed reading of a machine word (`int`). -/
def toInt (cfg : Config) (x : Nat) : Int :=
  if x % cfg.W < cfg.W / 2 then ((x % cfg.W : Nat) : Int) else ((x % cfg.W : Nat) : Int) - cfg.W

/-- Line 80: `stackSize += sizeof(task_t)`. -/
def adjust (cfg : Config) (stackSize : Nat) : Nat :=
  (stackSize + cfg.sizeofTask) % cfg.W

/-- Line 85: `if (s_main.stack == NULL) s_main.stack = stack`. -/
def setMainStack (cfg : Config) (s : Sched) (stack : Nat) : Sched :=
  if (s.mem cfg.s_main).stack = NULL then
    { s with mem := setStack s.mem cfg.s_main stack }
  else s

/-- Lines 90 and 92: the word `HEAPEND` after the margin is added. -/
def HEAPEND (cfg : Config) (env : Env) : Nat :=
  ((if env.brkval = 0 then env.heap_start else env.brkval) % cfg.W + env.malloc_margin) % cfg.W

/-- Line 91: the word `STACKSTART`; `stackSize` is the adjusted size. -/
def STACKSTART (cfg : Config) (env : Env) (stackSize : Nat) : Nat :=
  (env.stack % cfg.W + cfg.W - stackSize % cfg.W) % cfg.W

/-- Line 116: the pointer `stack - stackSize`. -/
def stackLow (cfg : Config) (env : Env) (stackSize : Nat) : Nat :=
  (env.stack % cfg.W + cfg.W - stackSize % cfg.W) % cfg.W

/-- `SchedulerClass::start` (lines 73-120). -/
def start (cfg : Config) (s : Sched) (taskSetup taskLoop : func_t) (stackSize : Nat)
    (env : Env) : Bool × Sched :=
  if s.s_running ≠ cfg.s_main ∨ taskLoop = NULL then (false, s)
  else
    match cfg.arch with
    | Arch.ESP8266 => (true, init cfg s taskSetup taskLoop 0 env.task)
    | Arch.AVR =>
      let stackSize := adjust cfg stackSize
      let s1 := setMainStack cfg s env.stack
      if toInt cfg (STACKSTART cfg env stackSize) < toInt cfg (HEAPEND cfg env) then (false, s1)
      else
        let s2 := { s1 with malloc_heap_end := STACKSTART cfg env stackSize }
        let s3 := { s2 with s_top := (s2.s_top + stackSize) % cfg.W }
        (true, init cfg s3 taskSetup taskLoop (stackLow cfg env stackSize) env.task)
    | Arch.ARM =>
      let stackSize := adjust cfg stackSize
      let s1 := setMainStack cfg s env.stack
      if (s1.s_top + stackSize) % cfg.W > cfg.STACK_MAX then (false, s1)
      else
        let s3 := { s1 with s_top := (s1.s_top + stackSize) % cfg.W }
        (true, init cfg s3 taskSetup taskLoop (stackLow cfg env stackSize) env.task)

/-- `SchedulerClass::yield` (lines 122-136): the effect on the globals. -/
def yield (cfg : Config) (s : Sched) : Sched :=
  match cfg.arch with
  | Arch.ESP8266 => { s with s_running := (s.mem s.s_running).next }
  | _ =>
    -- setjmp(s_running->context) returns 0 to the caller
    let m1 := setContext s.mem s.s_running Context.atYield
    -- s_running = s_running->next;
    { s with mem := m1, s_running := (m1 s.s_running).next }

/-- `SchedulerClass::stack` (lines 139-143); `marker` is the address of the
local variable. -/
def stack (cfg : Config) (s : Sched) (marker : Nat) : Nat :=
  (marker % cfg.W + cfg.W - (s.mem s.s_running).stack % cfg.W) % cfg.W

/-! ## The run queue as a list -/

/-- The `next` link stored at an address. -/
def nextOf (s : Sched) (a : Nat) : Nat := (s.mem a).next

/-- The `prev` link stored at an address. -/
def prevOf (s : Sched) (a : Nat) : Nat := (s.mem a).prev

/-- The run queue of `s` is the cycle `s_main, ts[0], ..., ts[n-1]`: the
addresses are pairwise distinct, every `next` link leads to the following
address (the last one back to `s_main`) and every `prev` link leads back. -/
def IsRing (cfg : Config) (s : Sched) (ts : List Nat) : Prop :=
  (cfg.s_main :: ts).Nodup ∧
  (cfg.s_main :: ts).map (nextOf s) = ts ++ [cfg.s_main] ∧
  (ts ++ [cfg.s_main]).map (prevOf s) = cfg.s_main :: ts

instance (cfg : Config) (s : Sched) (ts : List Nat) : Decidable (IsRing cfg s ts) :=
  inferInstanceAs (Decidable (_ ∧ _ ∧ _))

/-- The arguments of one call of `start`. -/
structure StartReq where
  taskSetup : func_t
  taskLoop : func_t
  stackSize : Nat
  env : Env

/-- Result of `start` on a request. -/
def startReq (cfg : Config) (s : Sched) (r : StartReq) : Bool × Sched :=
  start cfg s r.taskSetup r.taskLoop r.stackSize r.env

/-! ## Committed stack regions -/

/-- A call of `begin`, `start` or `yield`. -/
inductive Call where
  | begin (stackSize : Nat)
  | start (r : StartReq)
  | yield

/-- Whether a call is a call of `begin`. -/
def Call.isBegin : Call → Bool
  | Call.begin _ => true
  | _ => false

/-- Whether a call is a call of `start`. -/
def Call.isStart : Call → Bool
  | Call.start _ => true
  | _ => false

/-- The region committed by a call of `start` that returned `true`: the
values of `s_top` before and after the call. -/
structure Region where
  task : Nat
  before : Nat
  after : Nat
  deriving DecidableEq, Repr

/-- A scheduler state together with the record of what was committed. -/
structure Trace where
  sched : Sched
  /-- Value of `s_top` at the first call of `start` that passed line 76. -/
  firstTop : Option Nat
  /-- Regions committed so far, oldest first. -/
  regions : List Region

/-- Perform one call and record what it commits. -/
def exec (cfg : Config) (tr : Trace) : Call → Trace
  | Call.begin stackSize => { tr with sched := (begin cfg tr.sched stackSize).2 }
  | Call.yield => { tr with sched := yield cfg tr.sched }
  | Call.start r =>
    { sched := (startReq cfg tr.sched r).2
      firstTop :=
        if tr.sched.s_running ≠ cfg.s_main ∨ r.taskLoop = NULL then tr.firstTop
        else match tr.firstTop with
          | some top => some top
          | none => some tr.sched.s_top
      regions :=
        if (startReq cfg tr.sched r).1 then
          tr.regions ++ [{ task := r.env.task, before := tr.sched.s_top,
                           after := (startReq cfg tr.sched r).2.s_top }]
        else tr.regions }

/-- Perform a sequence of calls from a state. -/
def run (cfg : Config) (calls : List Call) (s : Sched) : Trace :=
  calls.foldl (exec cfg) { sched := s, firstTop := none, regions := [] }

/-- An address lies in the interval `[RAMEND - after, RAMEND - before)`. -/
def Region.Mem (cfg : Config) (r : Region) (x : Int) : Prop :=
  (cfg.RAMEND : Int) - r.after ≤ x ∧ x < (cfg.RAMEND : Int) - r.before

/-- Two regions share no address. -/
def Region.Disjoint (cfg : Config) (r1 r2 : Region) : Prop :=
  ∀ x : Int, ¬ (r1.Mem cfg x ∧ r2.Mem cfg x)

instance (cfg : Config) (r : Region) (x : Int) : Decidable (r.Mem cfg x) :=
  inferInstanceAs (Decidable (_ ∧ _))

/-- The region `[RAMEND - top, RAMEND)` reserved for the main task. -/
def mainRegion (cfg : Config) (top : Nat) : Region :=
  { task := cfg.s_main, before := 0, after := top }

/-- The record of a trace is consistent: committed regions are pairwise
disjoint and end at or before the mark, and all lie beyond the mark seen at the
first call of `start` that passed line 76. -/
def Trace.Good (cfg : Config) (tr : Trace) : Prop :=
  tr.regions.Pairwise (Region.Disjoint cfg) ∧
  (∀ r ∈ tr.regions, r.after ≤ tr.sched.s_top) ∧
  (tr.firstTop = none → tr.regions = []) ∧
  (∀ top, tr.firstTop = some top → top ≤ tr.sched.s_top ∧ ∀ r ∈ tr.regions, top ≤ r.before)

/-! ## Where `start` places the array and the record

Line 83 measures `frame`, the distance of the local `frame` from `RAMEND`, and
line 84 declares the array `stack` of `s_top - frame` bytes, which lies
directly below that local.  The frame of `init`, holding the local record
`task` (line 149), follows below the frame of `start`. -/

/-- Difference of two machine words. -/
def subW (W a b : Nat) : Nat := (a % W + W - b % W) % W

/-- Values decided outside the scheduler at a call of `start`. -/
structure Site where
  /-- Address of the local `frame`, that is the stack depth of the caller. -/
  sp : Nat
  /-- Value of `__brkval`. -/
  brkval : Nat
  /-- Address of `__heap_start`. -/
  heap_start : Nat
  /-- Value of `__malloc_margin`. -/
  malloc_margin : Nat

/-- Line 83: `frame = RAMEND - (size_t) &frame`. -/
def frameOf (cfg : Config) (sp : Nat) : Nat := subW cfg.W cfg.RAMEND sp

/-- Line 84: the address of `stack[s_top - frame]`, the array ending at the
local `frame`. -/
def vlaAddr (cfg : Config) (s : Sched) (sp : Nat) : Nat :=
  subW cfg.W sp (subW cfg.W s.s_top (frameOf cfg sp))

/-- The address `RAMEND - top - off`. -/
def topRecord (cfg : Config) (off top : Nat) : Nat :=
  subW cfg.W (subW cfg.W cfg.RAMEND top) off

/-- Line 149: the address of the local record `task` of `init`, `off` bytes
below the frame of `start`: below the array `stack` where it is declared, below
the local `frame` on ESP8266, where it is not. -/
def recordAddr (cfg : Config) (off : Nat) (s : Sched) (sp : Nat) : Nat :=
  match cfg.arch with
  | Arch.ESP8266 => subW cfg.W sp off
  | _ => subW cfg.W (vlaAddr cfg s sp) off

/-- The environment of a call of `start` made in state `s` at a site. -/
def envOf (cfg : Config) (off : Nat) (s : Sched) (site : Site) : Env :=
  { stack := vlaAddr cfg s site.sp
    task := recordAddr cfg off s site.sp
    brkval := site.brkval
    heap_start := site.heap_start
    malloc_margin := site.malloc_margin }

/-- A call of a public member function. -/
inductive Op where
  | begin (stackSize : Nat)
  | start (taskSetup taskLoop : func_t) (stackSize : Nat) (site : Site)
  | yield
  | stack (marker : Nat)

/-- Whether a call is a call of `begin`. -/
def Op.isBegin : Op → Bool
  | Op.begin _ => true
  | _ => false

/-- Whether a call is a call of `start`. -/
def Op.isStart : Op → Bool
  | Op.start _ _ _ _ => true
  | _ => false

/-- The call with the environment it meets in state `s`; `stack()` only reads
and changes nothing. -/
def callOf (cfg : Config) (off : Nat) (s : Sched) : Op → Option Call
  | Op.begin stackSize => some (Call.begin stackSize)
  | Op.start taskSetup taskLoop stackSize site =>
    some (Call.start { taskSetup := taskSetup, taskLoop := taskLoop, stackSize := stackSize,
                       env := envOf cfg off s site })
  | Op.yield => some Call.yield
  | Op.stack _ => none

/-- Perform one call and record what it commits. -/
def perform (cfg : Config) (off : Nat) (tr : Trace) (op : Op) : Trace :=
  match callOf cfg off tr.sched op with
  | some c => exec cfg tr c
  | none => tr

/-- Perform a sequence of calls from a state. -/
def runOps (cfg : Config) (off : Nat) (ops : List Op) (s : Sched) : Trace :=
  ops.foldl (perform cfg off) { sched := s, firstTop := none, regions := [] }

/-- No call of `begin` follows a call of `start`. -/
def BeginFirst (ops : List Op) : Prop :=
  ops.Pairwise (fun a b => ¬ (a.isStart = true ∧ b.isBegin = true))

instance (ops : List Op) : Decidable (BeginFirst ops) :=
  inferInstanceAs (Decidable (List.Pairwise _ _))

/-- The run queue of a trace consists of `s_main` and the records of the
accepted requests in order, the running pointer is one of them, and every
accepted request raised `s_top` from the value that fixes its record address
to a value not above the present one. -/
def RingInv (cfg : Config) (off : Nat) (tr : Trace) : Prop :=
  IsRing cfg tr.sched (tr.regions.map Region.task) ∧
  tr.sched.s_running ∈ cfg.s_main :: tr.regions.map Region.task ∧
  ∀ r ∈ tr.regions, r.after ≤ tr.sched.s_top ∧ r.before < r.after ∧ r.after < cfg.W ∧
    r.task = topRecord cfg off r.before

/-! ## The body of a task

The block entered when `setjmp(task.context)` in `init` returns nonzero
(lines 160-163): `if (setup != NULL) setup(); while (1) loop();`. -/

/-- Where a task is in that block. -/
inductive Phase where
  /-- The context is captured and was never resumed. -/
  | CREATED
  /-- Inside the call `setup()`. -/
  | SETUP
  /-- Inside a call `loop()` of the `while (1)`. -/
  | LOOP
  deriving DecidableEq, Repr

/-- A call of a task function made by the block. -/
inductive Invoke where
  | setup (f : func_t)
  | loop (f : func_t)
  deriving DecidableEq, Repr

/-- What happens to a task: the scheduler resumes its saved continuation, or
the task function it is executing returns. -/
inductive Event where
  | resume
  | ret
  deriving DecidableEq, Repr

/-- One event of a task created by `init(setup, loop, _)`: the new phase and
the calls it makes. -/
def taskStep (setup loop : func_t) : Phase → Event → Phase × List Invoke
  -- longjmp to the context saved in init: setjmp returns nonzero
  | Phase.CREATED, Event.resume =>
    if setup ≠ NULL then (Phase.SETUP, [Invoke.setup setup])
    else (Phase.LOOP, [Invoke.loop loop])
  -- a task that never ran executes no function that could return
  | Phase.CREATED, Event.ret => (Phase.CREATED, [])
  -- longjmp to a context saved by yield inside setup(): continue there
  | Phase.SETUP, Event.resume => (Phase.SETUP, [])
  -- setup() returns: enter while (1) loop()
  | Phase.SETUP, Event.ret => (Phase.LOOP, [Invoke.loop loop])
  -- longjmp to a context saved by yield inside loop(): continue there
  | Phase.LOOP, Event.resume => (Phase.LOOP, [])
  -- loop() returns: next iteration of while (1)
  | Phase.LOOP, Event.ret => (Phase.LOOP, [Invoke.loop loop])

/-- A sequence of events from a phase: the final phase and all calls made. -/
def taskRun (setup loop : func_t) : Phase → List Event → Phase × List Invoke
  | ph, [] => (ph, [])
  | ph, e :: es =>
    ((taskRun setup loop (taskStep setup loop ph e).1 es).1,
     (taskStep setup loop ph e).2 ++ (taskRun setup loop (taskStep setup loop ph e).1 es).2)

/-! ## Concrete targets used in the examples -/

/-- Memory holding nothing but zeroes. -/
def zeroMem : Nat → task_t :=
  fun _ => { next := 0, prev := 0, context := Context.zero, stack := 0 }

/-- A 32 bit target of the ARM family. -/
def armCfg : Config :=
  { arch := Arch.ARM, bits := 32, sizeofTask := 104, STACK_MAX := 16384,
    DEFAULT_STACK_SIZE := 512, s_main := 0x1FFF8010, RAMEND := 0x20008000 }

/-- A 16 bit AVR target. -/
def avrCfg : Config :=
  { arch := Arch.AVR, bits := 16, sizeofTask := 29, STACK_MAX := 0,
    DEFAULT_STACK_SIZE := 128, s_main := 0x0110, RAMEND := 0x08FF }

/-- An environment with the array `stack` and the record `task` at the given
addresses and an untouched heap starting at `0x0200`. -/
def envAt (stack task margin : Nat) : Env :=
  { stack := stack, task := task, brkval := 0, heap_start := 0x0200, malloc_margin := margin }

/-- The ARM target after `begin(1024)`. -/
def armBegun : Sched := (begin armCfg (initial armCfg zeroMem 0) 1024).2

/-- On the ARM target: `begin(300)`, a request, `begin(300)` again, a request. -/
def rebeginCalls : List Call :=
  [Call.begin 300,
   Call.start { taskSetup := 0, taskLoop := 7, stackSize := 100,
                env := envAt 0x20007ED4 0x20007E00 0 },
   Call.begin 300,
   Call.start { taskSetup := 0, taskLoop := 9, stackSize := 100,
                env := envAt 0x20007ED4 0x20007D00 0 }]

/-- On the ARM target: two requests with a `yield` cycle in between. -/
def plainCalls : List Call :=
  [Call.start { taskSetup := 0, taskLoop := 7, stackSize := 100,
                env := envAt 0x20007ED4 0x20007E00 0 },
   Call.yield, Call.yield,
   Call.start { taskSetup := 0, taskLoop := 9, stackSize := 100,
                env := envAt 0x20007E08 0x20007D00 0 }]

/-- A call site on the ARM target: the caller at depth `0x20007F00`. -/
def armSite : Site := { sp := 0x20007F00, brkval := 0, heap_start := 0x1FFF9000, malloc_margin := 0 }

/-- On the ARM target: a request whose adjusted size wraps to zero, then a
plain request. -/
def wrapOps : List Op :=
  [Op.start 0 7 4294967192 armSite, Op.start 0 9 100 armSite]

/-- On the ARM target: `begin(300)`, a request, a `yield` and a `stack()`. -/
def orderlyOps : List Op :=
  [Op.begin 300, Op.start 0 7 100 armSite, Op.yield, Op.stack 0x20007EF0]

/-! ## Theorems -/

/-- C1: when the running task is not the main task, or `taskLoop` is null,
`start` returns `false` and the scheduler state is the one before the call. -/
theorem start_guard_rejects (cfg : Config) (s : Sched) (taskSetup taskLoop : func_t)
    (stackSize : Nat) (env : Env) (h : s.s_running ≠ cfg.s_main ∨ taskLoop = NULL) :
    start cfg s taskSetup taskLoop stackSize env = (false, s) := by
  unfold start
  rw [if_pos h]

/-- Instance of C1: a null `taskLoop` on the ARM target. -/
theorem start_guard_rejects_witness :
    ((initial armCfg zeroMem 0).s_running ≠ armCfg.s_main ∨ (0 : func_t) = NULL) ∧
    start armCfg (initial armCfg zeroMem 0) 7 0 100 (envAt 0x20007E00 0x20007D00 0)
      = (false, initial armCfg zeroMem 0) :=
  ⟨Or.inr rfl, start_guard_rejects _ _ _ _ _ _ (Or.inr rfl)⟩

/-! ### Field assignments -/

theorem W_pos (cfg : Config) : 0 < cfg.W := by
  unfold Config.W
  exact Nat.pow_pos (by decide)


theorem setNext_next (m : Nat → task_t) (a v x : Nat) :
    (setNext m a v x).next = if x = a then v else (m x).next := by
  unfold setNext setTask; split <;> rfl

theorem setNext_prev (m : Nat → task_t) (a v x : Nat) :
    (setNext m a v x).prev = (m x).prev := by
  unfold setNext setTask; split <;> simp_all

theorem setNext_context (m : Nat → task_t) (a v x : Nat) :
    (setNext m a v x).context = (m x).context := by
  unfold setNext setTask; split <;> simp_all

theorem setNext_stack (m : Nat → task_t) (a v x : Nat) :
    (setNext m a v x).stack = (m x).stack := by
  unfold setNext setTask; split <;> simp_all

theorem setPrev_next (m : Nat → task_t) (a v x : Nat) :
    (setPrev m a v x).next = (m x).next := by
  unfold setPrev setTask; split <;> simp_all

theorem setPrev_prev (m : Nat → task_t) (a v x : Nat) :
    (setPrev m a v x).prev = if x = a then v else (m x).prev := by
  unfold setPrev setTask; split <;> rfl

theorem setPrev_context (m : Nat → task_t) (a v x : Nat) :
    (setPrev m a v x).context = (m x).context := by
  unfold setPrev setTask; split <;> simp_all

theorem setPrev_stack (m : Nat → task_t) (a v x : Nat) :
    (setPrev m a v x).stack = (m x).stack := by
  unfold setPrev setTask; split <;> simp_all

theorem setStack_next (m : Nat → task_t) (a v x : Nat) :
    (setStack m a v x).next = (m x).next := by
  unfold setStack setTask; split <;> simp_all

theorem setStack_prev (m : Nat → task_t) (a v x : Nat) :
    (setStack m a v x).prev = (m x).prev := by
  unfold setStack setTask; split <;> simp_all

theorem setStack_context (m : Nat → task_t) (a v x : Nat) :
    (setStack m a v x).context = (m x).context := by
  unfold setStack setTask; split <;> simp_all

theorem setStack_stack (m : Nat → task_t) (a v x : Nat) :
    (setStack m a v x).stack = if x = a then v else (m x).stack := by
  unfold setStack setTask; split <;> rfl

theorem setStack_other (m : Nat → task_t) (a v x : Nat) (h : x ≠ a) :
    setStack m a v x = m x := by
  unfold setStack setTask; rw [if_neg h]

theorem setContext_next (m : Nat → task_t) (a : Nat) (c : Context) (x : Nat) :
    (setContext m a c x).next = (m x).next := by
  unfold setContext setTask; split <;> simp_all

theorem setContext_prev (m : Nat → task_t) (a : Nat) (c : Context) (x : Nat) :
    (setContext m a c x).prev = (m x).prev := by
  unfold setContext setTask; split <;> simp_all

theorem setContext_stack (m : Nat → task_t) (a : Nat) (c : Context) (x : Nat) :
    (setContext m a c x).stack = (m x).stack := by
  unfold setContext setTask; split <;> simp_all

theorem setContext_context (m : Nat → task_t) (a : Nat) (c : Context) (x : Nat) :
    (setContext m a c x).context = if x = a then c else (m x).context := by
  unfold setContext setTask; split <;> rfl

/-! ### `start` past the guard of line 76 -/

theorem start_guard_fails (cfg : Config) (s : Sched) (taskSetup taskLoop : func_t)
    (stackSize : Nat) (env : Env) (h : s.s_running ≠ cfg.s_main ∨ taskLoop = NULL) :
    start cfg s taskSetup taskLoop stackSize env = (false, s) := by
  unfold start
  rw [if_pos h]

theorem start_arm (cfg : Config) (harch : cfg.arch = Arch.ARM) (s : Sched)
    (taskSetup taskLoop : func_t) (stackSize : Nat) (env : Env)
    (hrun : s.s_running = cfg.s_main) (hloop : taskLoop ≠ NULL) :
    start cfg s taskSetup taskLoop stackSize env =
      if (s.s_top + adjust cfg stackSize) % cfg.W > cfg.STACK_MAX then
        (false, setMainStack cfg s env.stack)
      else
        (true, init cfg { setMainStack cfg s env.stack with
                            s_top := (s.s_top + adjust cfg stackSize) % cfg.W }
                 taskSetup taskLoop (stackLow cfg env (adjust cfg stackSize)) env.task) := by
  have hs : (setMainStack cfg s env.stack).s_top = s.s_top := by
    unfold setMainStack; split <;> rfl
  unfold start
  rw [if_neg (by simp [hrun, hloop])]
  simp only [harch, hs]

theorem start_avr (cfg : Config) (harch : cfg.arch = Arch.AVR) (s : Sched)
    (taskSetup taskLoop : func_t) (stackSize : Nat) (env : Env)
    (hrun : s.s_running = cfg.s_main) (hloop : taskLoop ≠ NULL) :
    start cfg s taskSetup taskLoop stackSize env =
      if toInt cfg (STACKSTART cfg env (adjust cfg stackSize)) < toInt cfg (HEAPEND cfg env) then
        (false, setMainStack cfg s env.stack)
      else
        (true, init cfg { setMainStack cfg s env.stack with
                            malloc_heap_end := STACKSTART cfg env (adjust cfg stackSize)
                            s_top := (s.s_top + adjust cfg stackSize) % cfg.W }
                 taskSetup taskLoop (stackLow cfg env (adjust cfg stackSize)) env.task) := by
  have hs : (setMainStack cfg s env.stack).s_top = s.s_top := by
    unfold setMainStack; split <;> rfl
  unfold start
  rw [if_neg (by simp [hrun, hloop])]
  simp only [harch, hs]

theorem start_esp (cfg : Config) (harch : cfg.arch = Arch.ESP8266) (s : Sched)
    (taskSetup taskLoop : func_t) (stackSize : Nat) (env : Env)
    (hrun : s.s_running = cfg.s_main) (hloop : taskLoop ≠ NULL) :
    start cfg s taskSetup taskLoop stackSize env =
      (true, init cfg s taskSetup taskLoop 0 env.task) := by
  unfold start
  rw [if_neg (by simp [hrun, hloop])]
  simp only [harch]

theorem init_s_top (cfg : Config) (s : Sched) (setup loop : func_t) (stk t : Nat) :
    (init cfg s setup loop stk t).s_top = s.s_top := by
  unfold init; cases cfg.arch <;> rfl

theorem init_s_running (cfg : Config) (s : Sched) (setup loop : func_t) (stk t : Nat) :
    (init cfg s setup loop stk t).s_running = s.s_running := by
  unfold init; cases cfg.arch <;> rfl

theorem init_malloc_heap_end (cfg : Config) (s : Sched) (setup loop : func_t) (stk t : Nat) :
    (init cfg s setup loop stk t).malloc_heap_end = s.malloc_heap_end := by
  unfold init; cases cfg.arch <;> rfl

theorem setMainStack_s_top (cfg : Config) (s : Sched) (stk : Nat) :
    (setMainStack cfg s stk).s_top = s.s_top := by
  unfold setMainStack; split <;> rfl

theorem setMainStack_s_running (cfg : Config) (s : Sched) (stk : Nat) :
    (setMainStack cfg s stk).s_running = s.s_running := by
  unfold setMainStack; split <;> rfl

theorem setMainStack_malloc_heap_end (cfg : Config) (s : Sched) (stk : Nat) :
    (setMainStack cfg s stk).malloc_heap_end = s.malloc_heap_end := by
  unfold setMainStack; split <;> rfl

theorem setMainStack_links (cfg : Config) (s : Sched) (stk : Nat) (a : Nat) :
    ((setMainStack cfg s stk).mem a).next = (s.mem a).next ∧
    ((setMainStack cfg s stk).mem a).prev = (s.mem a).prev ∧
    ((setMainStack cfg s stk).mem a).context = (s.mem a).context := by
  unfold setMainStack
  split
  · exact ⟨setStack_next _ _ _ _, setStack_prev _ _ _ _, setStack_context _ _ _ _⟩
  · exact ⟨rfl, rfl, rfl⟩

theorem setMainStack_other (cfg : Config) (s : Sched) (stk : Nat) (a : Nat)
    (h : a ≠ cfg.s_main) : (setMainStack cfg s stk).mem a = s.mem a := by
  unfold setMainStack
  split
  · exact setStack_other _ _ _ _ h
  · rfl

/-- On the ARM family, a request whose sums do not wrap is rejected exactly
when `s_top + stackSize + sizeof(task_t)` exceeds `STACK_MAX`, and an accepted
one advances `s_top` by `stackSize + sizeof(task_t)`. -/
theorem start_arm_no_wrap (cfg : Config) (harch : cfg.arch = Arch.ARM) (s : Sched)
    (taskSetup taskLoop : func_t) (stackSize : Nat) (env : Env)
    (hrun : s.s_running = cfg.s_main) (hloop : taskLoop ≠ NULL)
    (hfit : s.s_top + stackSize + cfg.sizeofTask < cfg.W) :
    ((start cfg s taskSetup taskLoop stackSize env).1 = false ↔
        cfg.STACK_MAX < s.s_top + stackSize + cfg.sizeofTask) ∧
    ((start cfg s taskSetup taskLoop stackSize env).1 = true →
        (start cfg s taskSetup taskLoop stackSize env).2.s_top
          = s.s_top + stackSize + cfg.sizeofTask) := by
  have h1 : adjust cfg stackSize = stackSize + cfg.sizeofTask := by
    unfold adjust; exact Nat.mod_eq_of_lt (by omega)
  have h2 : (s.s_top + adjust cfg stackSize) % cfg.W = s.s_top + stackSize + cfg.sizeofTask := by
    rw [h1, ← Nat.add_assoc]; exact Nat.mod_eq_of_lt hfit
  rw [start_arm cfg harch s taskSetup taskLoop stackSize env hrun hloop, h2]
  by_cases h : cfg.STACK_MAX < s.s_top + stackSize + cfg.sizeofTask
  · simp [h]
  · simp [h, init_s_top]

/-- C3 at a request whose size wraps: with `s_top = 512` and
`stackSize = 2^32 - 1` the sum `s_top + stackSize + sizeof(task_t)` exceeds
`STACK_MAX`, yet `start` returns `true` and `s_top` becomes `615`. -/
theorem start_arm_accepts_wrapped_size :
    armCfg.STACK_MAX < (initial armCfg zeroMem 0).s_top + 4294967295 + armCfg.sizeofTask ∧
    (start armCfg (initial armCfg zeroMem 0) 0 7 4294967295
        (envAt 0x20007E00 0x20007D00 0)).1 = true ∧
    (start armCfg (initial armCfg zeroMem 0) 0 7 4294967295
        (envAt 0x20007E00 0x20007D00 0)).2.s_top = 615 := by
  decide

/-- C10 at a request near `2^32`: from `s_top = 1024 ≤ STACK_MAX` the request
`stackSize = 2^32 - 1024 - sizeof(task_t)` is accepted and the new mark `0` is
below the old one. -/
theorem start_arm_mark_wraps :
    armBegun.s_top ≤ armCfg.STACK_MAX ∧
    (start armCfg armBegun 0 7 4294966168 (envAt 0x20007C00 0x20007B00 0)).1 = true ∧
    (start armCfg armBegun 0 7 4294966168 (envAt 0x20007C00 0x20007B00 0)).2.s_top = 0 ∧
    ¬ (armBegun.s_top ≤
        (start armCfg armBegun 0 7 4294966168 (envAt 0x20007C00 0x20007B00 0)).2.s_top) := by
  decide

/-- C4 fails on a first call: on the ARM target, in the initial state
(`s_main.stack` null), the request `stackSize = 20000` is rejected by the
admission check and `s_main.stack` has changed. -/
theorem start_rejection_changes_main_stack :
    (initial armCfg zeroMem 0).s_running = armCfg.s_main ∧
    ((initial armCfg zeroMem 0).mem armCfg.s_main).stack = NULL ∧
    (start armCfg (initial armCfg zeroMem 0) 0 7 20000
        (envAt 0x20007E00 0x20007D00 0)).1 = false ∧
    ((start armCfg (initial armCfg zeroMem 0) 0 7 20000
        (envAt 0x20007E00 0x20007D00 0)).2.mem armCfg.s_main).stack
      ≠ ((initial armCfg zeroMem 0).mem armCfg.s_main).stack := by
  decide

/-- C4 as amended: when `start` passes the guard of line 76 and returns `false`
(the admission check rejects), `s_top`, the running pointer, the heap ceiling,
every `next`, `prev` and `context` field and every record other than `s_main`
are unchanged; `s_main.stack` is unchanged when it was not null (the whole
state is then unchanged), and is set to the address of the array `stack` when
it was null. -/
theorem start_rejection_state (cfg : Config) (s : Sched) (taskSetup taskLoop : func_t)
    (stackSize : Nat) (env : Env)
    (hrun : s.s_running = cfg.s_main) (hloop : taskLoop ≠ NULL)
    (hrej : (start cfg s taskSetup taskLoop stackSize env).1 = false) :
    (start cfg s taskSetup taskLoop stackSize env).2.s_top = s.s_top ∧
    (start cfg s taskSetup taskLoop stackSize env).2.s_running = s.s_running ∧
    (start cfg s taskSetup taskLoop stackSize env).2.malloc_heap_end = s.malloc_heap_end ∧
    (∀ a, ((start cfg s taskSetup taskLoop stackSize env).2.mem a).next = (s.mem a).next ∧
          ((start cfg s taskSetup taskLoop stackSize env).2.mem a).prev = (s.mem a).prev ∧
          ((start cfg s taskSetup taskLoop stackSize env).2.mem a).context
            = (s.mem a).context) ∧
    (∀ a, a ≠ cfg.s_main →
          (start cfg s taskSetup taskLoop stackSize env).2.mem a = s.mem a) ∧
    ((s.mem cfg.s_main).stack ≠ NULL →
          (start cfg s taskSetup taskLoop stackSize env).2 = s) ∧
    ((s.mem cfg.s_main).stack = NULL →
          ((start cfg s taskSetup taskLoop stackSize env).2.mem cfg.s_main).stack
            = env.stack) := by
  have key : (start cfg s taskSetup taskLoop stackSize env).2 = setMainStack cfg s env.stack := by
    cases harch : cfg.arch with
    | AVR =>
      rw [start_avr cfg harch s taskSetup taskLoop stackSize env hrun hloop] at hrej ⊢
      split at hrej
      · rw [if_pos (by assumption)]
      · simp at hrej
    | ARM =>
      rw [start_arm cfg harch s taskSetup taskLoop stackSize env hrun hloop] at hrej ⊢
      split at hrej
      · rw [if_pos (by assumption)]
      · simp at hrej
    | ESP8266 =>
      rw [start_esp cfg harch s taskSetup taskLoop stackSize env hrun hloop] at hrej
      simp at hrej
  rw [key]
  refine ⟨setMainStack_s_top _ _ _, setMainStack_s_running _ _ _,
    setMainStack_malloc_heap_end _ _ _, setMainStack_links _ _ _,
    setMainStack_other _ _ _, ?_, ?_⟩
  · intro h
    unfold setMainStack
    rw [if_neg h]
  · intro h
    unfold setMainStack
    rw [if_pos h]
    simp [setStack_stack]

/-- Instance of C4 as amended: the rejected first call on the ARM target. -/
theorem start_rejection_state_witness :
    (initial armCfg zeroMem 0).s_running = armCfg.s_main ∧ (7 : func_t) ≠ NULL ∧
    (start armCfg (initial armCfg zeroMem 0) 0 7 20000
        (envAt 0x20007E00 0x20007D00 0)).1 = false ∧
    (start armCfg (initial armCfg zeroMem 0) 0 7 20000
        (envAt 0x20007E00 0x20007D00 0)).2.s_top = (initial armCfg zeroMem 0).s_top :=
  ⟨by decide, by decide, by decide,
   (start_rejection_state armCfg (initial armCfg zeroMem 0) 0 7 20000
      (envAt 0x20007E00 0x20007D00 0) (by decide) (by decide) (by decide)).1⟩

/-- C5 fails at equality: on the AVR target with `stack = 2048`,
`stackSize = 100`, `&__heap_start = 512`, `__malloc_margin = 1407`, both
`STACKSTART` and `HEAPEND` are `1919`, and `start` returns `true`. -/
theorem start_avr_accepts_at_boundary :
    (initial avrCfg zeroMem 0).s_running = avrCfg.s_main ∧ (7 : func_t) ≠ NULL ∧
    toInt avrCfg (STACKSTART avrCfg (envAt 2048 1900 1407) (adjust avrCfg 100)) = 1919 ∧
    toInt avrCfg (HEAPEND avrCfg (envAt 2048 1900 1407)) = 1919 ∧
    (start avrCfg (initial avrCfg zeroMem 0) 0 7 100 (envAt 2048 1900 1407)).1 = true := by
  decide

/-- On AVR, past the guard of line 76, `start` compares the words `STACKSTART`
and `HEAPEND` as `int`; the words are `stack - stackSize - sizeof(task_t)` and
the heap boundary plus `__malloc_margin` when these fit an `int`. -/
theorem start_avr_words (cfg : Config) (harch : cfg.arch = Arch.AVR) (s : Sched)
    (taskSetup taskLoop : func_t) (stackSize : Nat) (env : Env)
    (hrun : s.s_running = cfg.s_main) (hloop : taskLoop ≠ NULL) :
    ((start cfg s taskSetup taskLoop stackSize env).1 = false ↔
      toInt cfg (STACKSTART cfg env (adjust cfg stackSize)) < toInt cfg (HEAPEND cfg env)) ∧
    (toInt cfg (HEAPEND cfg env) ≤ toInt cfg (STACKSTART cfg env (adjust cfg stackSize)) →
      (start cfg s taskSetup taskLoop stackSize env).1 = true ∧
      (start cfg s taskSetup taskLoop stackSize env).2.malloc_heap_end
        = STACKSTART cfg env (adjust cfg stackSize)) ∧
    (stackSize + cfg.sizeofTask < cfg.W → (env.stack : Nat) < cfg.W / 2 →
      stackSize + cfg.sizeofTask ≤ env.stack + cfg.W / 2 →
      toInt cfg (STACKSTART cfg env (adjust cfg stackSize))
        = (env.stack : Int) - stackSize - cfg.sizeofTask) ∧
    ((if env.brkval = 0 then env.heap_start else env.brkval) + env.malloc_margin < cfg.W / 2 →
      toInt cfg (HEAPEND cfg env)
        = ((if env.brkval = 0 then env.heap_start else env.brkval : Nat) : Int)
            + env.malloc_margin) := by
  refine ⟨?_, ?_, ?_, ?_⟩
  · rw [start_avr cfg harch s taskSetup taskLoop stackSize env hrun hloop]
    by_cases h : toInt cfg (STACKSTART cfg env (adjust cfg stackSize)) < toInt cfg (HEAPEND cfg env)
    · simp [h]
    · simp [h]
  · intro h
    rw [start_avr cfg harch s taskSetup taskLoop stackSize env hrun hloop]
    rw [if_neg (not_lt.mpr h)]
    exact ⟨rfl, by rw [init_malloc_heap_end]⟩
  · intro h0 h2 h3
    have hW : cfg.W / 2 ≤ cfg.W := Nat.div_le_self _ _
    have ha : adjust cfg stackSize = stackSize + cfg.sizeofTask := by
      unfold adjust; exact Nat.mod_eq_of_lt h0
    have hs : env.stack % cfg.W = env.stack := Nat.mod_eq_of_lt (by omega)
    have ha2 : (stackSize + cfg.sizeofTask) % cfg.W = stackSize + cfg.sizeofTask :=
      Nat.mod_eq_of_lt h0
    by_cases h1 : stackSize + cfg.sizeofTask ≤ env.stack
    · have hv : STACKSTART cfg env (adjust cfg stackSize)
          = env.stack - (stackSize + cfg.sizeofTask) := by
        unfold STACKSTART
        rw [ha, hs, ha2]
        have : env.stack + cfg.W - (stackSize + cfg.sizeofTask)
            = (env.stack - (stackSize + cfg.sizeofTask)) + cfg.W := by omega
        rw [this, Nat.add_mod_right]
        exact Nat.mod_eq_of_lt (by omega)
      have hm : (env.stack - (stackSize + cfg.sizeofTask)) % cfg.W
          = env.stack - (stackSize + cfg.sizeofTask) := Nat.mod_eq_of_lt (by omega)
      rw [hv]
      unfold toInt
      rw [hm, if_pos (by omega)]
      omega
    · have hv : STACKSTART cfg env (adjust cfg stackSize)
          = env.stack + cfg.W - (stackSize + cfg.sizeofTask) := by
        unfold STACKSTART
        rw [ha, hs, ha2]
        exact Nat.mod_eq_of_lt (by omega)
      have hm : (env.stack + cfg.W - (stackSize + cfg.sizeofTask)) % cfg.W
          = env.stack + cfg.W - (stackSize + cfg.sizeofTask) := Nat.mod_eq_of_lt (by omega)
      rw [hv]
      unfold toInt
      rw [hm, if_neg (by omega)]
      omega
  · intro h
    have hW : cfg.W / 2 ≤ cfg.W := Nat.div_le_self _ _
    have hv : HEAPEND cfg env
        = (if env.brkval = 0 then env.heap_start else env.brkval) + env.malloc_margin := by
      unfold HEAPEND
      generalize (if env.brkval = 0 then env.heap_start else env.brkval) = b at h ⊢
      have hb : b % cfg.W = b := Nat.mod_eq_of_lt (by omega)
      rw [hb]
      exact Nat.mod_eq_of_lt (by omega)
    rw [hv]
    generalize (if env.brkval = 0 then env.heap_start else env.brkval) = b at h ⊢
    have hm : (b + env.malloc_margin) % cfg.W = b + env.malloc_margin :=
      Nat.mod_eq_of_lt (by omega)
    unfold toInt
    rw [hm, if_pos h]
    omega

/-- C5 as amended: on AVR, for a state with `s_main` running, a non-null
`taskLoop` and a request whose computations do not wrap (the adjusted size
fits `size_t`, `stack` and the heap boundary plus `__malloc_margin` are
positive `int` values, and `stack - stackSize - sizeof(task_t)` is not below
the least `int`), with `STACKSTART = stack - stackSize - sizeof(task_t)` and
`HEAPEND` the heap boundary plus `__malloc_margin`: `start` returns `false`
exactly when `STACKSTART < HEAPEND`; when `STACKSTART ≥ HEAPEND`, equality
included, it returns `true` and sets `__malloc_heap_end` to `STACKSTART`. -/
theorem start_avr_admission (cfg : Config) (harch : cfg.arch = Arch.AVR) (s : Sched)
    (taskSetup taskLoop : func_t) (stackSize : Nat) (env : Env)
    (hrun : s.s_running = cfg.s_main) (hloop : taskLoop ≠ NULL)
    (hsize : stackSize + cfg.sizeofTask < cfg.W) (hstack : (env.stack : Nat) < cfg.W / 2)
    (hlow : stackSize + cfg.sizeofTask ≤ env.stack + cfg.W / 2)
    (hheap : (if env.brkval = 0 then env.heap_start else env.brkval) + env.malloc_margin
      < cfg.W / 2) :
    ((start cfg s taskSetup taskLoop stackSize env).1 = false ↔
      (env.stack : Int) - stackSize - cfg.sizeofTask
        < ((if env.brkval = 0 then env.heap_start else env.brkval : Nat) : Int)
            + env.malloc_margin) ∧
    (((if env.brkval = 0 then env.heap_start else env.brkval : Nat) : Int) + env.malloc_margin
        ≤ (env.stack : Int) - stackSize - cfg.sizeofTask →
      (start cfg s taskSetup taskLoop stackSize env).1 = true ∧
      ((start cfg s taskSetup taskLoop stackSize env).2.malloc_heap_end : Int)
        = (env.stack : Int) - stackSize - cfg.sizeofTask) := by
  obtain ⟨h1, h2, h3, h4⟩ :=
    start_avr_words cfg harch s taskSetup taskLoop stackSize env hrun hloop
  have e3 := h3 hsize hstack hlow
  have e4 := h4 hheap
  rw [e3, e4] at h1 h2
  refine ⟨h1, ?_⟩
  intro hle
  obtain ⟨a, b⟩ := h2 hle
  refine ⟨a, ?_⟩
  rw [b]
  -- the word is not negative here, so it is its own signed reading
  have hnn : (0 : Int) ≤ (env.stack : Int) - stackSize - cfg.sizeofTask := by
    have : (0 : Int) ≤ ((if env.brkval = 0 then env.heap_start else env.brkval : Nat) : Int)
        + env.malloc_margin := by positivity
    omega
  have hW : cfg.W / 2 ≤ cfg.W := Nat.div_le_self _ _
  have hlt : STACKSTART cfg env (adjust cfg stackSize) < cfg.W := by
    unfold STACKSTART
    exact Nat.mod_lt _ (W_pos cfg)
  have hm : STACKSTART cfg env (adjust cfg stackSize) % cfg.W
      = STACKSTART cfg env (adjust cfg stackSize) := Nat.mod_eq_of_lt hlt
  unfold toInt at e3
  rw [hm] at e3
  split at e3
  · exact e3
  · omega

/-- Instance of C5 as amended: the request at the boundary is accepted and the
heap ceiling becomes `STACKSTART = 1919`. -/
theorem start_avr_admission_witness :
    avrCfg.arch = Arch.AVR ∧ (initial avrCfg zeroMem 0).s_running = avrCfg.s_main ∧
    (7 : func_t) ≠ NULL ∧ 100 + avrCfg.sizeofTask < avrCfg.W ∧
    (envAt 2048 1900 1407).stack < avrCfg.W / 2 ∧
    100 + avrCfg.sizeofTask ≤ (envAt 2048 1900 1407).stack + avrCfg.W / 2 ∧
    (if (envAt 2048 1900 1407).brkval = 0 then (envAt 2048 1900 1407).heap_start
      else (envAt 2048 1900 1407).brkval) + (envAt 2048 1900 1407).malloc_margin
        < avrCfg.W / 2 ∧
    (start avrCfg (initial avrCfg zeroMem 0) 0 7 100 (envAt 2048 1900 1407)).1 = true ∧
    ((start avrCfg (initial avrCfg zeroMem 0) 0 7 100
        (envAt 2048 1900 1407)).2.malloc_heap_end : Int) = 1919 :=
  ⟨rfl, by decide, by decide, by decide, by decide, by decide, by decide,
   (start_avr_admission avrCfg rfl (initial avrCfg zeroMem 0) 0 7 100 (envAt 2048 1900 1407)
      (by decide) (by decide) (by decide) (by decide) (by decide) (by decide)).2 (by decide)⟩

/-! ### Links after `init` -/

theorem init_nextOf (cfg : Config) (s : Sched) (setup loop : func_t) (stk t a : Nat) :
    nextOf (init cfg s setup loop stk t) a =
      if a = (s.mem cfg.s_main).prev then t
      else if a = t then cfg.s_main else nextOf s a := by
  unfold init nextOf
  cases cfg.arch <;>
    simp only [setNext_next, setPrev_next, setStack_next, setContext_next, setPrev_prev,
      setNext_prev] <;>
    split_ifs <;> simp_all

theorem init_prevOf (cfg : Config) (s : Sched) (setup loop : func_t) (stk t a : Nat) :
    prevOf (init cfg s setup loop stk t) a =
      if a = cfg.s_main then t
      else if a = t then (s.mem cfg.s_main).prev else prevOf s a := by
  unfold init prevOf
  cases cfg.arch <;>
    simp only [setNext_prev, setPrev_prev, setStack_prev, setContext_prev]

/-! ### The run queue under the operations -/

theorem IsRing.congr {cfg : Config} {s s2 : Sched} {ts : List Nat}
    (hn : ∀ a, nextOf s2 a = nextOf s a) (hp : ∀ a, prevOf s2 a = prevOf s a)
    (h : IsRing cfg s ts) : IsRing cfg s2 ts := by
  have e1 : nextOf s2 = nextOf s := funext hn
  have e2 : prevOf s2 = prevOf s := funext hp
  unfold IsRing at h ⊢
  rw [e1, e2]
  exact h

theorem IsRing.prev_main {cfg : Config} {s : Sched} {ts : List Nat} (h : IsRing cfg s ts) :
    cfg.s_main :: ts = ts.map (prevOf s) ++ [(s.mem cfg.s_main).prev] := by
  have := h.2.2
  rw [List.map_append] at this
  exact this.symm

theorem IsRing.prev_main_mem {cfg : Config} {s : Sched} {ts : List Nat}
    (h : IsRing cfg s ts) : (s.mem cfg.s_main).prev ∈ cfg.s_main :: ts := by
  rw [h.prev_main]
  simp

theorem IsRing.init {cfg : Config} {s : Sched} {ts : List Nat} (h : IsRing cfg s ts)
    (setup loop : func_t) (stk t : Nat) (ht : t ∉ cfg.s_main :: ts) :
    IsRing cfg (init cfg s setup loop stk t) (ts ++ [t]) := by
  have hdec := h.prev_main
  have hpm := h.prev_main_mem
  have htp : t ≠ (s.mem cfg.s_main).prev := fun e => ht (e ▸ hpm)
  have htm : t ≠ cfg.s_main := fun e => ht (e ▸ List.mem_cons_self _ _)
  have hnd := h.1
  -- the links read along the old list
  have hnext : (ts.map (prevOf s)).map (nextOf s) ++ [nextOf s (s.mem cfg.s_main).prev]
      = ts ++ [cfg.s_main] := by
    have := h.2.1
    rw [hdec, List.map_append] at this
    exact this
  have hn1 : (ts.map (prevOf s)).map (nextOf s) = ts :=
    List.append_inj_left' hnext rfl
  refine ⟨?_, ?_, ?_⟩
  · have : cfg.s_main :: (ts ++ [t]) = (cfg.s_main :: ts) ++ [t] := rfl
    rw [this, List.nodup_append]
    refine ⟨hnd, List.nodup_singleton t, ?_⟩
    intro a ha hb
    rw [List.mem_singleton] at hb
    exact ht (hb ▸ ha)
  · have e : cfg.s_main :: (ts ++ [t])
        = ts.map (prevOf s) ++ [(s.mem cfg.s_main).prev] ++ [t] := by
      rw [← hdec]; rfl
    rw [e, List.map_append, List.map_append]
    have hd : (ts.map (prevOf s)).map (nextOf (Scheduler.init cfg s setup loop stk t))
        = (ts.map (prevOf s)).map (nextOf s) := by
      apply List.map_congr_left
      intro a ha
      rw [init_nextOf]
      have hal : a ∈ cfg.s_main :: ts := by rw [hdec]; exact List.mem_append_left _ ha
      have hap : a ≠ (s.mem cfg.s_main).prev := by
        intro e2
        rw [hdec] at hnd
        have := (List.nodup_append.mp hnd).2.2
        exact this ha (by rw [e2]; exact List.mem_singleton_self _)
      have hat : a ≠ t := fun e2 => ht (e2 ▸ hal)
      rw [if_neg hap, if_neg hat]
    rw [hd, hn1]
    simp [init_nextOf, htp, htp.symm]
  · rw [List.map_append, List.map_append]
    have hd : ts.map (prevOf (Scheduler.init cfg s setup loop stk t)) = ts.map (prevOf s) := by
      apply List.map_congr_left
      intro a ha
      rw [init_prevOf]
      have ham : a ≠ cfg.s_main := by
        intro e2
        exact (List.nodup_cons.mp hnd).1 (e2 ▸ ha)
      have hat : a ≠ t := fun e2 => ht (e2 ▸ List.mem_cons_of_mem _ ha)
      rw [if_neg ham, if_neg hat]
    rw [hd]
    have e : cfg.s_main :: (ts ++ [t]) = (cfg.s_main :: ts) ++ [t] := rfl
    rw [e, hdec]
    simp [init_prevOf, htm, htm.symm]

/-- C8: on a well formed run queue `s_main, ts` and a record address `t` not in
it, `init` links `t` immediately before `s_main`: `t.next = s_main`,
`s_main.prev = t`, `t.prev` is the old `s_main.prev` (the last address of the
queue) and that record's `next` is `t`; all other `next` and `prev` links are
unchanged, and the queue is the old one with `t` appended. -/
theorem init_inserts_before_main (cfg : Config) (s : Sched) (ts : List Nat)
    (h : IsRing cfg s ts) (setup loop : func_t) (stk t : Nat) (ht : t ∉ cfg.s_main :: ts) :
    ((init cfg s setup loop stk t).mem t).next = cfg.s_main ∧
    ((init cfg s setup loop stk t).mem cfg.s_main).prev = t ∧
    ((init cfg s setup loop stk t).mem t).prev = (s.mem cfg.s_main).prev ∧
    ((init cfg s setup loop stk t).mem (s.mem cfg.s_main).prev).next = t ∧
    (∀ a, a ≠ t → a ≠ (s.mem cfg.s_main).prev →
        ((init cfg s setup loop stk t).mem a).next = (s.mem a).next) ∧
    (∀ a, a ≠ t → a ≠ cfg.s_main →
        ((init cfg s setup loop stk t).mem a).prev = (s.mem a).prev) ∧
    (s.mem cfg.s_main).prev = (cfg.s_main :: ts).getLast (List.cons_ne_nil _ _) ∧
    IsRing cfg (init cfg s setup loop stk t) (ts ++ [t]) := by
  have hpm := h.prev_main_mem
  have htp : t ≠ (s.mem cfg.s_main).prev := fun e => ht (e ▸ hpm)
  have htm : t ≠ cfg.s_main := fun e => ht (e ▸ List.mem_cons_self _ _)
  have hn := init_nextOf cfg s setup loop stk t
  have hp := init_prevOf cfg s setup loop stk t
  unfold nextOf at hn
  unfold prevOf at hp
  refine ⟨?_, ?_, ?_, ?_, ?_, ?_, ?_, h.init setup loop stk t ht⟩
  · rw [hn, if_neg htp, if_pos rfl]
  · rw [hp, if_pos rfl]
  · rw [hp, if_neg htm, if_pos rfl]
  · rw [hn, if_pos rfl]
  · intro a h1 h2
    rw [hn, if_neg h2, if_neg h1]
  · intro a h1 h2
    rw [hp, if_neg h2, if_neg h1]
  · have e := h.prev_main
    have : (cfg.s_main :: ts).getLast (List.cons_ne_nil _ _)
        = (ts.map (prevOf s) ++ [(s.mem cfg.s_main).prev]).getLast
            (List.append_ne_nil_of_right_ne_nil _ (List.cons_ne_nil _ _)) := by
      congr 1
    rw [this, List.getLast_append_singleton]

/-- Instance of C8: the first insertion into the initial queue on the ARM
target. -/
theorem init_inserts_before_main_witness :
    IsRing armCfg (initial armCfg zeroMem 0) [] ∧
    0x20007D00 ∉ armCfg.s_main :: ([] : List Nat) ∧
    IsRing armCfg (init armCfg (initial armCfg zeroMem 0) 0 7 0x20007D98 0x20007D00)
      ([] ++ [0x20007D00]) :=
  ⟨by decide, by decide,
   (init_inserts_before_main armCfg (initial armCfg zeroMem 0) [] (by decide) 0 7
      0x20007D98 0x20007D00 (by decide)).2.2.2.2.2.2.2⟩

/-! ### `yield` and the run queue -/

theorem yield_nextOf (cfg : Config) (s : Sched) (a : Nat) :
    nextOf (yield cfg s) a = nextOf s a := by
  unfold yield nextOf
  cases cfg.arch <;> simp only [setContext_next]

theorem yield_prevOf (cfg : Config) (s : Sched) (a : Nat) :
    prevOf (yield cfg s) a = prevOf s a := by
  unfold yield prevOf
  cases cfg.arch <;> simp only [setContext_prev]

theorem yield_s_running (cfg : Config) (s : Sched) :
    (yield cfg s).s_running = nextOf s s.s_running := by
  unfold yield nextOf
  cases cfg.arch <;> simp only [setContext_next]

theorem yield_s_top (cfg : Config) (s : Sched) : (yield cfg s).s_top = s.s_top := by
  unfold yield
  cases cfg.arch <;> rfl

theorem yield_iterate (cfg : Config) (s : Sched) (k : Nat) :
    (∀ a, nextOf ((yield cfg)^[k] s) a = nextOf s a) ∧
    (∀ a, prevOf ((yield cfg)^[k] s) a = prevOf s a) ∧
    ((yield cfg)^[k] s).s_running = (nextOf s)^[k] s.s_running := by
  induction k with
  | zero => exact ⟨fun _ => rfl, fun _ => rfl, rfl⟩
  | succ k ih =>
    rw [Function.iterate_succ_apply', Function.iterate_succ_apply']
    refine ⟨fun a => ?_, fun a => ?_, ?_⟩
    · rw [yield_nextOf, ih.1]
    · rw [yield_prevOf, ih.2.1]
    · rw [yield_s_running, ih.1, ih.2.2]

theorem IsRing.next_getElem? {cfg : Config} {s : Sched} {ts : List Nat}
    (h : IsRing cfg s ts) (j a : Nat) (hj : (cfg.s_main :: ts)[j]? = some a) :
    (cfg.s_main :: ts)[(j + 1) % (ts.length + 1)]? = some (nextOf s a) := by
  have hlt : j < (cfg.s_main :: ts).length := by
    by_contra hge
    rw [List.getElem?_eq_none (Nat.le_of_not_lt hge)] at hj
    exact Option.noConfusion hj
  have hrot : ts ++ [cfg.s_main] = (cfg.s_main :: ts).rotate 1 := by
    rw [List.rotate_cons_succ, List.rotate_zero]
  have e := congrArg (fun l => l[j]?) h.2.1
  simp only [List.getElem?_map] at e
  rw [hj, hrot, List.getElem?_rotate hlt] at e
  simpa using e.symm

theorem IsRing.iterate {cfg : Config} {s : Sched} {ts : List Nat} (h : IsRing cfg s ts)
    (k : Nat) :
    (cfg.s_main :: ts)[k % (ts.length + 1)]? = some ((nextOf s)^[k] cfg.s_main) := by
  induction k with
  | zero => simp
  | succ k ih =>
    rw [Function.iterate_succ_apply']
    have := h.next_getElem? _ _ ih
    rwa [Nat.mod_add_mod] at this

/-! ### `start` and the run queue -/

theorem start_true (cfg : Config) (s : Sched) (taskSetup taskLoop : func_t) (stackSize : Nat)
    (env : Env) (h : (start cfg s taskSetup taskLoop stackSize env).1 = true) :
    s.s_running = cfg.s_main ∧ taskLoop ≠ NULL ∧
    ∃ s3 stk, (start cfg s taskSetup taskLoop stackSize env).2
        = init cfg s3 taskSetup taskLoop stk env.task ∧
      (∀ a, nextOf s3 a = nextOf s a) ∧ (∀ a, prevOf s3 a = prevOf s a) ∧
      s3.s_running = s.s_running := by
  by_cases hg : s.s_running ≠ cfg.s_main ∨ taskLoop = NULL
  · rw [start_guard_fails cfg s taskSetup taskLoop stackSize env hg] at h
    exact Bool.noConfusion h
  · have hrun : s.s_running = cfg.s_main := by
      by_contra hne; exact hg (Or.inl hne)
    have hloop : taskLoop ≠ NULL := fun e => hg (Or.inr e)
    refine ⟨hrun, hloop, ?_⟩
    cases harch : cfg.arch with
    | AVR =>
      rw [start_avr cfg harch s taskSetup taskLoop stackSize env hrun hloop] at h ⊢
      split at h
      · exact Bool.noConfusion h
      · rw [if_neg (by assumption)]
        exact ⟨_, _, rfl, fun a => (setMainStack_links cfg s env.stack a).1,
          fun a => (setMainStack_links cfg s env.stack a).2.1, setMainStack_s_running _ _ _⟩
    | ARM =>
      rw [start_arm cfg harch s taskSetup taskLoop stackSize env hrun hloop] at h ⊢
      split at h
      · exact Bool.noConfusion h
      · rw [if_neg (by assumption)]
        exact ⟨_, _, rfl, fun a => (setMainStack_links cfg s env.stack a).1,
          fun a => (setMainStack_links cfg s env.stack a).2.1, setMainStack_s_running _ _ _⟩
    | ESP8266 =>
      rw [start_esp cfg harch s taskSetup taskLoop stackSize env hrun hloop]
      exact ⟨s, 0, rfl, fun _ => rfl, fun _ => rfl, rfl⟩

theorem start_false_cases (cfg : Config) (s : Sched) (taskSetup taskLoop : func_t)
    (stackSize : Nat) (env : Env)
    (h : (start cfg s taskSetup taskLoop stackSize env).1 = false) :
    (start cfg s taskSetup taskLoop stackSize env).2 = s ∨
    (start cfg s taskSetup taskLoop stackSize env).2 = setMainStack cfg s env.stack := by
  by_cases hg : s.s_running ≠ cfg.s_main ∨ taskLoop = NULL
  · left
    rw [start_guard_fails cfg s taskSetup taskLoop stackSize env hg]
  · have hrun : s.s_running = cfg.s_main := by
      by_contra hne; exact hg (Or.inl hne)
    have hloop : taskLoop ≠ NULL := fun e => hg (Or.inr e)
    right
    cases harch : cfg.arch with
    | AVR =>
      rw [start_avr cfg harch s taskSetup taskLoop stackSize env hrun hloop] at h ⊢
      split at h
      · rw [if_pos (by assumption)]
      · exact Bool.noConfusion h
    | ARM =>
      rw [start_arm cfg harch s taskSetup taskLoop stackSize env hrun hloop] at h ⊢
      split at h
      · rw [if_pos (by assumption)]
      · exact Bool.noConfusion h
    | ESP8266 =>
      rw [start_esp cfg harch s taskSetup taskLoop stackSize env hrun hloop] at h
      exact Bool.noConfusion h

theorem start_false_s_top (cfg : Config) (s : Sched) (taskSetup taskLoop : func_t)
    (stackSize : Nat) (env : Env)
    (h : (start cfg s taskSetup taskLoop stackSize env).1 = false) :
    (start cfg s taskSetup taskLoop stackSize env).2.s_top = s.s_top := by
  rcases start_false_cases cfg s taskSetup taskLoop stackSize env h with e | e
  · rw [e]
  · rw [e, setMainStack_s_top]

theorem start_isRing_true {cfg : Config} {s : Sched} {ts : List Nat} (hr : IsRing cfg s ts)
    (taskSetup taskLoop : func_t) (stackSize : Nat) (env : Env)
    (h : (start cfg s taskSetup taskLoop stackSize env).1 = true)
    (ht : env.task ∉ cfg.s_main :: ts) :
    IsRing cfg (start cfg s taskSetup taskLoop stackSize env).2 (ts ++ [env.task]) ∧
    (start cfg s taskSetup taskLoop stackSize env).2.s_running = cfg.s_main := by
  obtain ⟨hrun, _, s3, stk, e, hn, hp, hr3⟩ :=
    start_true cfg s taskSetup taskLoop stackSize env h
  rw [e]
  exact ⟨(IsRing.congr hn hp hr).init _ _ _ _ ht, by rw [init_s_running, hr3, hrun]⟩

theorem start_isRing_false {cfg : Config} {s : Sched} {ts : List Nat} (hr : IsRing cfg s ts)
    (taskSetup taskLoop : func_t) (stackSize : Nat) (env : Env)
    (h : (start cfg s taskSetup taskLoop stackSize env).1 = false) :
    IsRing cfg (start cfg s taskSetup taskLoop stackSize env).2 ts ∧
    (start cfg s taskSetup taskLoop stackSize env).2.s_running = s.s_running := by
  rcases start_false_cases cfg s taskSetup taskLoop stackSize env h with e | e
  · rw [e]; exact ⟨hr, rfl⟩
  · rw [e]
    exact ⟨IsRing.congr (fun a => (setMainStack_links cfg s env.stack a).1)
      (fun a => (setMainStack_links cfg s env.stack a).2.1) hr, setMainStack_s_running _ _ _⟩

theorem initial_isRing (cfg : Config) (garbage : Nat → task_t) (heapEnd : Nat) :
    IsRing cfg (initial cfg garbage heapEnd) [] := by
  unfold IsRing
  simp [nextOf, prevOf, initial, setTask]


/-! ### Word differences and the record address -/

theorem subW_eq (W a b : Nat) (hW : 0 < W) :
    subW W a b = if b % W ≤ a % W then a % W - b % W else a % W + W - b % W := by
  have ha : a % W < W := Nat.mod_lt _ hW
  have hb : b % W < W := Nat.mod_lt _ hW
  unfold subW
  split
  · rename_i h
    have e : a % W + W - b % W = (a % W - b % W) + W := by omega
    rw [e, Nat.add_mod_right]
    exact Nat.mod_eq_of_lt (by omega)
  · exact Nat.mod_eq_of_lt (by omega)

theorem subW_lt (W a b : Nat) (hW : 0 < W) : subW W a b < W := by
  unfold subW
  exact Nat.mod_lt _ hW

theorem subW_mod (W a b : Nat) (hW : 0 < W) : subW W a b % W = subW W a b :=
  Nat.mod_eq_of_lt (subW_lt W a b hW)

theorem vlaAddr_eq (cfg : Config) (s : Sched) (sp : Nat) :
    vlaAddr cfg s sp = subW cfg.W cfg.RAMEND s.s_top := by
  have hW := W_pos cfg
  unfold vlaAddr frameOf
  have h1 := subW_eq cfg.W cfg.RAMEND sp hW
  have h1m := subW_mod cfg.W cfg.RAMEND sp hW
  have h2 := subW_eq cfg.W s.s_top (subW cfg.W cfg.RAMEND sp) hW
  have h2m := subW_mod cfg.W s.s_top (subW cfg.W cfg.RAMEND sp) hW
  have h3 := subW_eq cfg.W sp (subW cfg.W s.s_top (subW cfg.W cfg.RAMEND sp)) hW
  have h4 := subW_eq cfg.W cfg.RAMEND s.s_top hW
  rw [h1m] at h2
  rw [h2m] at h3
  have ha : cfg.RAMEND % cfg.W < cfg.W := Nat.mod_lt _ hW
  have hb : sp % cfg.W < cfg.W := Nat.mod_lt _ hW
  have hc : s.s_top % cfg.W < cfg.W := Nat.mod_lt _ hW
  generalize subW cfg.W cfg.RAMEND sp = x at h1 h2 h3
  generalize subW cfg.W s.s_top x = y at h2 h3
  generalize subW cfg.W sp y = z at h3 ⊢
  generalize subW cfg.W cfg.RAMEND s.s_top = u at h4 ⊢
  generalize cfg.RAMEND % cfg.W = r at *
  generalize sp % cfg.W = p at *
  generalize s.s_top % cfg.W = t at *
  split at h1 <;> split at h2 <;> split at h3 <;> split at h4 <;> omega

theorem recordAddr_eq (cfg : Config) (off : Nat) (s : Sched) (sp : Nat)
    (harch : cfg.arch ≠ Arch.ESP8266) :
    recordAddr cfg off s sp = topRecord cfg off s.s_top := by
  unfold recordAddr topRecord
  cases h : cfg.arch with
  | ESP8266 => exact absurd h harch
  | AVR => simp only [vlaAddr_eq]
  | ARM => simp only [vlaAddr_eq]

theorem topRecord_ne (cfg : Config) (off t1 t2 : Nat) (h12 : t1 < t2) (h2 : t2 < cfg.W) :
    topRecord cfg off t1 ≠ topRecord cfg off t2 := by
  have hW := W_pos cfg
  unfold topRecord
  have a1 := subW_eq cfg.W cfg.RAMEND t1 hW
  have a1m := subW_mod cfg.W cfg.RAMEND t1 hW
  have a2 := subW_eq cfg.W cfg.RAMEND t2 hW
  have a2m := subW_mod cfg.W cfg.RAMEND t2 hW
  have b1 := subW_eq cfg.W (subW cfg.W cfg.RAMEND t1) off hW
  have b2 := subW_eq cfg.W (subW cfg.W cfg.RAMEND t2) off hW
  rw [a1m] at b1
  rw [a2m] at b2
  have e1 : t1 % cfg.W = t1 := Nat.mod_eq_of_lt (by omega)
  have e2 : t2 % cfg.W = t2 := Nat.mod_eq_of_lt h2
  rw [e1] at a1
  rw [e2] at a2
  have ha : cfg.RAMEND % cfg.W < cfg.W := Nat.mod_lt _ hW
  have ho : off % cfg.W < cfg.W := Nat.mod_lt _ hW
  generalize subW cfg.W cfg.RAMEND t1 = x1 at a1 b1 ⊢
  generalize subW cfg.W cfg.RAMEND t2 = x2 at a2 b2 ⊢
  generalize subW cfg.W x1 off = y1 at b1 ⊢
  generalize subW cfg.W x2 off = y2 at b2 ⊢
  generalize cfg.RAMEND % cfg.W = r at *
  generalize off % cfg.W = o at *
  split at a1 <;> split at a2 <;> split at b1 <;> split at b2 <;> omega

/-! ### Committed regions -/

theorem exec_regions_subset (cfg : Config) (tr : Trace) (c : Call) :
    ∀ r ∈ tr.regions, r ∈ (exec cfg tr c).regions := by
  intro r hr
  cases c with
  | begin stackSize => exact hr
  | yield => exact hr
  | start q =>
    simp only [exec]
    split
    · exact List.mem_append_left _ hr
    · exact hr

theorem foldl_regions_subset (cfg : Config) (calls : List Call) :
    ∀ tr : Trace, ∀ r ∈ tr.regions, r ∈ (calls.foldl (exec cfg) tr).regions := by
  induction calls with
  | nil => intro tr r hr; exact hr
  | cons c cs ih =>
    intro tr r hr
    exact ih (exec cfg tr c) r (exec_regions_subset cfg tr c r hr)

theorem foldl_no_start (cfg : Config) (calls : List Call) :
    ∀ tr : Trace, (∀ c ∈ calls, c.isStart = false) →
      (calls.foldl (exec cfg) tr).regions = tr.regions ∧
      (calls.foldl (exec cfg) tr).firstTop = tr.firstTop := by
  induction calls with
  | nil => intro tr _; exact ⟨rfl, rfl⟩
  | cons c cs ih =>
    intro tr h
    have hc := h c (List.mem_cons_self _ _)
    have hrest := ih (exec cfg tr c) (fun d hd => h d (List.mem_cons_of_mem _ hd))
    cases c with
    | begin stackSize => exact hrest
    | yield => exact hrest
    | start q => exact Bool.noConfusion hc

theorem Region.disjoint_of_le (cfg : Config) (r1 r2 : Region) (h : r1.after ≤ r2.before) :
    Region.Disjoint cfg r1 r2 := by
  intro x hx
  obtain ⟨⟨h1, _⟩, ⟨_, h4⟩⟩ := hx
  have : (r1.after : Int) ≤ (r2.before : Int) := by exact_mod_cast h
  omega

theorem Region.disjoint_main (cfg : Config) (r : Region) (top : Nat) (h : top ≤ r.before) :
    Region.Disjoint cfg r (mainRegion cfg top) := by
  intro x hx
  obtain ⟨⟨_, h2⟩, ⟨h3, _⟩⟩ := hx
  have : (top : Int) ≤ (r.before : Int) := by exact_mod_cast h
  simp only [mainRegion] at h3
  omega

theorem exec_good (cfg : Config) (tr : Trace) (c : Call) (hc : c.isBegin = false)
    (hg : tr.Good cfg) (hmono : ∀ r ∈ (exec cfg tr c).regions, r.before ≤ r.after) :
    (exec cfg tr c).Good cfg := by
  obtain ⟨hpw, hafter, hnone, hfirst⟩ := hg
  cases c with
  | begin stackSize => exact Bool.noConfusion hc
  | yield =>
    refine ⟨hpw, ?_, hnone, ?_⟩
    · intro r hr
      show r.after ≤ (yield cfg tr.sched).s_top
      rw [yield_s_top]; exact hafter r hr
    · intro top ht
      show top ≤ (yield cfg tr.sched).s_top ∧ _
      rw [yield_s_top]; exact hfirst top ht
  | start q =>
    cases hok : (startReq cfg tr.sched q).1 with
    | false =>
      have htop : (startReq cfg tr.sched q).2.s_top = tr.sched.s_top :=
        start_false_s_top cfg tr.sched q.taskSetup q.taskLoop q.stackSize q.env hok
      have hreg : (exec cfg tr (Call.start q)).regions = tr.regions := by
        simp only [exec, hok]; rfl
      refine ⟨by rw [hreg]; exact hpw, ?_, ?_, ?_⟩
      · intro r hr
        rw [hreg] at hr
        show r.after ≤ (startReq cfg tr.sched q).2.s_top
        rw [htop]; exact hafter r hr
      · intro hn
        rw [hreg]
        apply hnone
        simp only [exec] at hn
        split at hn
        · exact hn
        · split at hn
          · exact Option.noConfusion hn
          · assumption
      · intro top ht
        rw [hreg]
        show top ≤ (startReq cfg tr.sched q).2.s_top ∧ _
        rw [htop]
        simp only [exec] at ht
        split at ht
        · exact hfirst top ht
        · split at ht
          · rename_i top2 hsome
            rw [← Option.some.inj ht]
            exact hfirst top2 hsome
          · rename_i hn
            rw [← Option.some.inj ht, hnone hn]
            exact ⟨le_refl _, fun r hr => absurd hr (List.not_mem_nil r)⟩
    | true =>
      obtain ⟨hrun, hloop, _⟩ :=
        start_true cfg tr.sched q.taskSetup q.taskLoop q.stackSize q.env hok
      have hreg : (exec cfg tr (Call.start q)).regions = tr.regions ++
          [{ task := q.env.task, before := tr.sched.s_top,
             after := (startReq cfg tr.sched q).2.s_top }] := by
        simp only [exec, hok]; rfl
      have hle : tr.sched.s_top ≤ (startReq cfg tr.sched q).2.s_top := by
        have := hmono { task := q.env.task, before := tr.sched.s_top,
                        after := (startReq cfg tr.sched q).2.s_top }
          (by rw [hreg]; exact List.mem_append_right _ (List.mem_singleton_self _))
        exact this
      have hft : (exec cfg tr (Call.start q)).firstTop =
          match tr.firstTop with
          | some top => some top
          | none => some tr.sched.s_top := by
        simp only [exec]
        rw [if_neg (by simp [hrun, hloop])]
      refine ⟨?_, ?_, ?_, ?_⟩
      · rw [hreg, List.pairwise_append]
        refine ⟨hpw, List.pairwise_singleton _ _, ?_⟩
        intro r hr r2 hr2
        rw [List.mem_singleton] at hr2
        subst hr2
        exact Region.disjoint_of_le cfg _ _ (hafter r hr)
      · intro r hr
        rw [hreg] at hr
        show r.after ≤ (startReq cfg tr.sched q).2.s_top
        rcases List.mem_append.mp hr with h1 | h1
        · exact le_trans (hafter r h1) hle
        · rw [List.mem_singleton] at h1
          subst h1
          exact le_refl _
      · intro hn
        rw [hft] at hn
        split at hn <;> exact Option.noConfusion hn
      · intro top ht
        rw [hft] at ht
        show top ≤ (startReq cfg tr.sched q).2.s_top ∧ _
        have hold : top ≤ tr.sched.s_top ∧ ∀ r ∈ tr.regions, top ≤ r.before := by
          split at ht
          · rename_i top2 hsome
            rw [← Option.some.inj ht]
            exact hfirst top2 hsome
          · rename_i hn
            rw [← Option.some.inj ht, hnone hn]
            exact ⟨le_refl _, fun r hr => absurd hr (List.not_mem_nil r)⟩
        refine ⟨le_trans hold.1 hle, ?_⟩
        intro r hr
        rw [hreg] at hr
        rcases List.mem_append.mp hr with h1 | h1
        · exact hold.2 r h1
        · rw [List.mem_singleton] at h1
          subst h1
          exact hold.1

theorem foldl_good (cfg : Config) (calls : List Call) :
    ∀ tr : Trace, (∀ c ∈ calls, c.isBegin = false) → tr.Good cfg →
      (∀ r ∈ (calls.foldl (exec cfg) tr).regions, r.before ≤ r.after) →
      (calls.foldl (exec cfg) tr).Good cfg := by
  induction calls with
  | nil => intro tr _ hg _; exact hg
  | cons c cs ih =>
    intro tr h hg hmono
    apply ih (exec cfg tr c) (fun d hd => h d (List.mem_cons_of_mem _ hd))
    · apply exec_good cfg tr c (h c (List.mem_cons_self _ _)) hg
      intro r hr
      exact hmono r (foldl_regions_subset cfg cs (exec cfg tr c) r hr)
    · exact hmono

/-- C6 fails when `begin` is called again: on the ARM target the calls
`begin(300)`, `start(.., 100)`, `begin(300)`, `start(.., 100)` commit the same
interval of `s_top` values, `300` to `504`, to two tasks, and the address
`RAMEND - 400` lies in both regions. -/
theorem regions_overlap_after_second_begin :
    (run armCfg rebeginCalls (initial armCfg zeroMem 0)).regions
      = [{ task := 0x20007E00, before := 300, after := 504 },
         { task := 0x20007D00, before := 300, after := 504 }] ∧
    ¬ Region.Disjoint armCfg { task := 0x20007E00, before := 300, after := 504 }
        { task := 0x20007D00, before := 300, after := 504 } ∧
    ¬ (run armCfg rebeginCalls (initial armCfg zeroMem 0)).regions.Pairwise
        (Region.Disjoint armCfg) := by
  have hreg : (run armCfg rebeginCalls (initial armCfg zeroMem 0)).regions
      = [{ task := 0x20007E00, before := 300, after := 504 },
         { task := 0x20007D00, before := 300, after := 504 }] := by decide
  have hov : ¬ Region.Disjoint armCfg { task := 0x20007E00, before := 300, after := 504 }
      { task := 0x20007D00, before := 300, after := 504 } :=
    fun h => h ((armCfg.RAMEND : Int) - 400) ⟨by decide, by decide⟩
  refine ⟨hreg, hov, ?_⟩
  rw [hreg]
  intro hpw
  exact hov (List.rel_of_pairwise_cons hpw (List.mem_singleton_self _))

/-- C6 as amended: for a sequence of `begin`, `start` and `yield` calls in
which every `begin` comes before every `start`, and in which no accepted
request moves `s_top` downwards (no wrap around `2 ^ bits`), the regions
committed to the started tasks are pairwise disjoint, and each is disjoint
from the region of the main task below the value of `s_top` at the first
`start`. -/
theorem regions_disjoint (cfg : Config) (s : Sched) (pre post : List Call)
    (hpre : ∀ c ∈ pre, c.isStart = false) (hpost : ∀ c ∈ post, c.isBegin = false)
    (hmono : ∀ r ∈ (run cfg (pre ++ post) s).regions, r.before ≤ r.after) :
    (run cfg (pre ++ post) s).regions.Pairwise (Region.Disjoint cfg) ∧
    ∀ top, (run cfg (pre ++ post) s).firstTop = some top →
      ∀ r ∈ (run cfg (pre ++ post) s).regions, Region.Disjoint cfg r (mainRegion cfg top) := by
  unfold run at hmono ⊢
  rw [List.foldl_append] at hmono ⊢
  obtain ⟨h1, h2⟩ := foldl_no_start cfg pre { sched := s, firstTop := none, regions := [] } hpre
  have hg0 : (List.foldl (exec cfg) { sched := s, firstTop := none, regions := [] } pre).Good
      cfg := by
    refine ⟨?_, ?_, ?_, ?_⟩
    · rw [h1]; exact List.Pairwise.nil
    · intro r hr; rw [h1] at hr; exact absurd hr (List.not_mem_nil r)
    · intro _; exact h1
    · intro top ht; rw [h2] at ht; exact Option.noConfusion ht
  obtain ⟨hpw, _, _, hfirst⟩ := foldl_good cfg post _ hpost hg0 hmono
  exact ⟨hpw, fun top ht r hr => Region.disjoint_main cfg r top ((hfirst top ht).2 r hr)⟩

/-- Instance of C6 as amended: two requests with a `yield` cycle in between on
the ARM target. -/
theorem regions_disjoint_witness :
    (∀ c ∈ ([] : List Call), c.isStart = false) ∧ (∀ c ∈ plainCalls, c.isBegin = false) ∧
    (∀ r ∈ (run armCfg ([] ++ plainCalls) (initial armCfg zeroMem 0)).regions,
      r.before ≤ r.after) ∧
    (run armCfg ([] ++ plainCalls) (initial armCfg zeroMem 0)).regions
      = [{ task := 0x20007E00, before := 512, after := 716 },
         { task := 0x20007D00, before := 716, after := 920 }] ∧
    (run armCfg ([] ++ plainCalls) (initial armCfg zeroMem 0)).regions.Pairwise
      (Region.Disjoint armCfg) :=
  ⟨by decide, by decide, by decide, by decide,
   (regions_disjoint armCfg (initial armCfg zeroMem 0) [] plainCalls (by decide) (by decide)
      (by decide)).1⟩


/-! ### The run queue along a sequence of calls -/

theorem start_true_s_top (cfg : Config) (s : Sched) (taskSetup taskLoop : func_t)
    (stackSize : Nat) (env : Env)
    (h : (start cfg s taskSetup taskLoop stackSize env).1 = true) :
    (cfg.arch = Arch.ESP8266 ∧
      (start cfg s taskSetup taskLoop stackSize env).2.s_top = s.s_top) ∨
    (cfg.arch ≠ Arch.ESP8266 ∧
      (start cfg s taskSetup taskLoop stackSize env).2.s_top < cfg.W) := by
  obtain ⟨hrun, hloop, _⟩ := start_true cfg s taskSetup taskLoop stackSize env h
  cases harch : cfg.arch with
  | AVR =>
    right
    refine ⟨fun e => Arch.noConfusion e, ?_⟩
    rw [start_avr cfg harch s taskSetup taskLoop stackSize env hrun hloop] at h ⊢
    split at h
    · exact Bool.noConfusion h
    · rw [if_neg (by assumption), init_s_top]
      exact Nat.mod_lt _ (W_pos cfg)
  | ARM =>
    right
    refine ⟨fun e => Arch.noConfusion e, ?_⟩
    rw [start_arm cfg harch s taskSetup taskLoop stackSize env hrun hloop] at h ⊢
    split at h
    · exact Bool.noConfusion h
    · rw [if_neg (by assumption), init_s_top]
      exact Nat.mod_lt _ (W_pos cfg)
  | ESP8266 =>
    left
    refine ⟨rfl, ?_⟩
    rw [start_esp cfg harch s taskSetup taskLoop stackSize env hrun hloop, init_s_top]

theorem perform_regions_subset (cfg : Config) (off : Nat) (tr : Trace) (op : Op) :
    ∀ r ∈ tr.regions, r ∈ (perform cfg off tr op).regions := by
  intro r hr
  unfold perform
  split
  · exact exec_regions_subset cfg tr _ r hr
  · exact hr

theorem runOps_regions_subset (cfg : Config) (off : Nat) (ops : List Op) :
    ∀ tr : Trace, ∀ r ∈ tr.regions, r ∈ (ops.foldl (perform cfg off) tr).regions := by
  induction ops with
  | nil => intro tr r hr; exact hr
  | cons c cs ih =>
    intro tr r hr
    exact ih (perform cfg off tr c) r (perform_regions_subset cfg off tr c r hr)

theorem perform_not_start (cfg : Config) (off : Nat) (tr : Trace) (op : Op)
    (h : op.isStart = false) : (perform cfg off tr op).regions = tr.regions := by
  cases op with
  | begin stackSize => rfl
  | start taskSetup taskLoop stackSize site => exact Bool.noConfusion h
  | yield => rfl
  | stack marker => rfl

theorem perform_inv (cfg : Config) (off : Nat) (tr : Trace) (op : Op)
    (hinv : RingInv cfg off tr) (hbegin : op.isBegin = true → tr.regions = [])
    (hadv : ∀ r ∈ (perform cfg off tr op).regions, r.before < r.after)
    (hmain : ∀ r ∈ (perform cfg off tr op).regions, r.task ≠ cfg.s_main) :
    RingInv cfg off (perform cfg off tr op) := by
  obtain ⟨hring, hrun, hreg⟩ := hinv
  cases op with
  | begin stackSize =>
    have hnil := hbegin rfl
    refine ⟨hring, hrun, ?_⟩
    intro r hr
    have hr2 : r ∈ tr.regions := hr
    rw [hnil] at hr2
    exact absurd hr2 (List.not_mem_nil r)
  | stack marker => exact ⟨hring, hrun, hreg⟩
  | yield =>
    refine ⟨IsRing.congr (yield_nextOf cfg tr.sched) (yield_prevOf cfg tr.sched) hring, ?_, ?_⟩
    · show (yield cfg tr.sched).s_running ∈ _
      rw [yield_s_running]
      obtain ⟨j, hj⟩ := List.mem_iff_getElem?.mp hrun
      exact List.getElem?_mem (hring.next_getElem? j _ hj)
    · intro r hr
      show r.after ≤ (yield cfg tr.sched).s_top ∧ _
      rw [yield_s_top]
      exact hreg r hr
  | start taskSetup taskLoop stackSize site =>
    cases hok : (start cfg tr.sched taskSetup taskLoop stackSize
        (envOf cfg off tr.sched site)).1 with
    | false =>
      have hregs : (perform cfg off tr (Op.start taskSetup taskLoop stackSize site)).regions
          = tr.regions := by
        simp only [perform, callOf, exec, startReq, hok]; rfl
      obtain ⟨h1, h2⟩ := start_isRing_false hring taskSetup taskLoop stackSize
        (envOf cfg off tr.sched site) hok
      have htop := start_false_s_top cfg tr.sched taskSetup taskLoop stackSize
        (envOf cfg off tr.sched site) hok
      refine ⟨?_, ?_, ?_⟩
      · rw [hregs]; exact h1
      · rw [hregs]
        show (start cfg tr.sched taskSetup taskLoop stackSize
          (envOf cfg off tr.sched site)).2.s_running ∈ _
        rw [h2]; exact hrun
      · intro r hr
        rw [hregs] at hr
        show r.after ≤ (start cfg tr.sched taskSetup taskLoop stackSize
          (envOf cfg off tr.sched site)).2.s_top ∧ _
        rw [htop]
        exact hreg r hr
    | true =>
      have hregs : (perform cfg off tr (Op.start taskSetup taskLoop stackSize site)).regions
          = tr.regions ++ [{ task := recordAddr cfg off tr.sched site.sp,
                             before := tr.sched.s_top,
                             after := (start cfg tr.sched taskSetup taskLoop stackSize
                               (envOf cfg off tr.sched site)).2.s_top }] := by
        simp only [perform, callOf, exec, startReq, hok]; rfl
      have hnew : ({ task := recordAddr cfg off tr.sched site.sp,
                     before := tr.sched.s_top,
                     after := (start cfg tr.sched taskSetup taskLoop stackSize
                       (envOf cfg off tr.sched site)).2.s_top } : Region)
          ∈ (perform cfg off tr (Op.start taskSetup taskLoop stackSize site)).regions := by
        rw [hregs]; exact List.mem_append_right _ (List.mem_singleton_self _)
      have hlt : tr.sched.s_top < (start cfg tr.sched taskSetup taskLoop stackSize
          (envOf cfg off tr.sched site)).2.s_top := hadv _ hnew
      have hne : recordAddr cfg off tr.sched site.sp ≠ cfg.s_main := hmain _ hnew
      have harch : cfg.arch ≠ Arch.ESP8266 ∧
          (start cfg tr.sched taskSetup taskLoop stackSize
            (envOf cfg off tr.sched site)).2.s_top < cfg.W := by
        rcases start_true_s_top cfg tr.sched taskSetup taskLoop stackSize
          (envOf cfg off tr.sched site) hok with h | h
        · rw [h.2] at hlt
          exact absurd hlt (Nat.lt_irrefl _)
        · exact h
      have haddr := recordAddr_eq cfg off tr.sched site.sp harch.1
      have hfresh : (envOf cfg off tr.sched site).task
          ∉ cfg.s_main :: tr.regions.map Region.task := by
        intro hmem
        rcases List.mem_cons.mp hmem with e | e
        · exact hne e
        · obtain ⟨r, hr, er⟩ := List.mem_map.mp e
          obtain ⟨h1, h2, _, h4⟩ := hreg r hr
          have : topRecord cfg off r.before ≠ topRecord cfg off tr.sched.s_top :=
            topRecord_ne cfg off _ _ (by omega) (by omega)
          apply this
          rw [← h4, er]
          exact haddr
      obtain ⟨h1, h2⟩ := start_isRing_true hring taskSetup taskLoop stackSize
        (envOf cfg off tr.sched site) hok hfresh
      refine ⟨?_, ?_, ?_⟩
      · rw [hregs, List.map_append]
        exact h1
      · show (start cfg tr.sched taskSetup taskLoop stackSize
          (envOf cfg off tr.sched site)).2.s_running ∈ _
        rw [h2]; exact List.mem_cons_self _ _
      · intro r hr
        rw [hregs] at hr
        show r.after ≤ (start cfg tr.sched taskSetup taskLoop stackSize
          (envOf cfg off tr.sched site)).2.s_top ∧ _
        rcases List.mem_append.mp hr with hr1 | hr1
        · obtain ⟨a1, a2, a3, a4⟩ := hreg r hr1
          exact ⟨by omega, a2, a3, a4⟩
        · rw [List.mem_singleton] at hr1
          subst hr1
          exact ⟨le_refl _, hlt, harch.2, haddr⟩

theorem runOps_inv (cfg : Config) (off : Nat) (ops : List Op) :
    ∀ tr : Trace, RingInv cfg off tr →
      (tr.regions ≠ [] → ∀ c ∈ ops, c.isBegin = false) → BeginFirst ops →
      (∀ r ∈ (ops.foldl (perform cfg off) tr).regions, r.before < r.after) →
      (∀ r ∈ (ops.foldl (perform cfg off) tr).regions, r.task ≠ cfg.s_main) →
      RingInv cfg off (ops.foldl (perform cfg off) tr) := by
  induction ops with
  | nil => intro tr hinv _ _ _ _; exact hinv
  | cons c cs ih =>
    intro tr hinv hseen horder hadv hmain
    have hsub := runOps_regions_subset cfg off cs (perform cfg off tr c)
    have hpw := List.pairwise_cons.mp horder
    apply ih (perform cfg off tr c)
    · apply perform_inv cfg off tr c hinv
      · intro hb
        by_contra hne
        have := hseen hne c (List.mem_cons_self _ _)
        rw [hb] at this
        exact Bool.noConfusion this
      · exact fun r hr => hadv r (hsub r hr)
      · exact fun r hr => hmain r (hsub r hr)
    · intro hne d hd
      by_cases hold : tr.regions = []
      · have hst : c.isStart = true := by
          by_contra hns
          have hns2 : c.isStart = false := by
            cases hc : c.isStart with
            | true => exact absurd hc hns
            | false => rfl
          rw [perform_not_start cfg off tr c hns2] at hne
          exact hne hold
        have := hpw.1 d hd
        cases hdb : d.isBegin with
        | true => exact absurd ⟨hst, hdb⟩ this
        | false => rfl
      · exact hseen hold d (List.mem_cons_of_mem _ hd)
    · exact hpw.2
    · exact hadv
    · exact hmain

theorem runOps_ringInv (cfg : Config) (off : Nat) (garbage : Nat → task_t) (heapEnd : Nat)
    (ops : List Op) (horder : BeginFirst ops)
    (hadv : ∀ r ∈ (runOps cfg off ops (initial cfg garbage heapEnd)).regions,
      r.before < r.after)
    (hmain : ∀ r ∈ (runOps cfg off ops (initial cfg garbage heapEnd)).regions,
      r.task ≠ cfg.s_main) :
    RingInv cfg off (runOps cfg off ops (initial cfg garbage heapEnd)) := by
  apply runOps_inv cfg off ops _ _ _ horder hadv hmain
  · exact ⟨initial_isRing cfg garbage heapEnd, List.mem_cons_self _ _,
      fun r hr => absurd hr (List.not_mem_nil r)⟩
  · intro hne
    exact absurd rfl hne

/-- On a sequence of calls in which no `begin` follows a `start`, every
accepted `start` raises `s_top` and no record is placed at `&s_main`, and
which leaves `s_main` running: after `k` calls of `yield` the running pointer
is entry `k mod (N+1)` of `s_main` followed by the records of the `N` accepted
requests in creation order. -/
theorem round_robin_when_advancing (cfg : Config) (off : Nat) (garbage : Nat → task_t)
    (heapEnd : Nat) (ops : List Op) (horder : BeginFirst ops)
    (hadv : ∀ r ∈ (runOps cfg off ops (initial cfg garbage heapEnd)).regions,
      r.before < r.after)
    (hmain : ∀ r ∈ (runOps cfg off ops (initial cfg garbage heapEnd)).regions,
      r.task ≠ cfg.s_main)
    (hrun : (runOps cfg off ops (initial cfg garbage heapEnd)).sched.s_running = cfg.s_main)
    (k : Nat) :
    (cfg.s_main :: (runOps cfg off ops (initial cfg garbage heapEnd)).regions.map Region.task)[
        k % ((runOps cfg off ops (initial cfg garbage heapEnd)).regions.length + 1)]?
      = some ((yield cfg)^[k]
          (runOps cfg off ops (initial cfg garbage heapEnd)).sched).s_running := by
  obtain ⟨hring, _, _⟩ := runOps_ringInv cfg off garbage heapEnd ops horder hadv hmain
  have h1 := hring.iterate k
  rw [(yield_iterate cfg _ k).2.2, hrun]
  simpa using h1

/-- C2 at a request whose adjusted size wraps to zero: on the ARM target
`start(.., 2^32 - 104)` and `start(.., 100)` both return `true` from the
initial state, the second reuses the record of the first, and the running
pointer after `0, 1, 2, 3, 4` calls of `yield` is `s_main`, then the one
record four times: `s_main` is never reached again. -/
theorem yield_repeats_after_wrapped_start :
    (runOps armCfg 104 wrapOps (initial armCfg zeroMem 0)).regions
      = [{ task := 0x20007D98, before := 512, after := 512 },
         { task := 0x20007D98, before := 512, after := 716 }] ∧
    (runOps armCfg 104 wrapOps (initial armCfg zeroMem 0)).sched.s_running = armCfg.s_main ∧
    (List.range 5).map (fun k => ((yield armCfg)^[k]
        (runOps armCfg 104 wrapOps (initial armCfg zeroMem 0)).sched).s_running)
      = [armCfg.s_main, 0x20007D98, 0x20007D98, 0x20007D98, 0x20007D98] := by
  decide

theorem taskRun_loop (setup loop : func_t) (evs : List Event) :
    (taskRun setup loop Phase.LOOP evs).1 = Phase.LOOP ∧
    ∃ n, (taskRun setup loop Phase.LOOP evs).2 = List.replicate n (Invoke.loop loop) := by
  induction evs with
  | nil => exact ⟨rfl, 0, rfl⟩
  | cons e es ih =>
    obtain ⟨h1, n, h2⟩ := ih
    cases e with
    | resume => exact ⟨h1, n, by simp only [taskRun, taskStep, h2, List.nil_append]⟩
    | ret =>
      exact ⟨h1, n + 1, by simp only [taskRun, taskStep, h2, List.replicate_succ]; rfl⟩

theorem taskRun_setup (setup loop : func_t) (evs : List Event) :
    ∃ n, (taskRun setup loop Phase.SETUP evs).2 = List.replicate n (Invoke.loop loop) := by
  induction evs with
  | nil => exact ⟨0, rfl⟩
  | cons e es ih =>
    cases e with
    | resume =>
      obtain ⟨n, h2⟩ := ih
      exact ⟨n, by simp only [taskRun, taskStep, h2, List.nil_append]⟩
    | ret =>
      obtain ⟨n, h2⟩ := (taskRun_loop setup loop es).2
      exact ⟨n + 1, by simp only [taskRun, taskStep, h2, List.replicate_succ]; rfl⟩

theorem taskRun_created (setup loop : func_t) (evs : List Event) :
    (Event.resume ∉ evs → taskRun setup loop Phase.CREATED evs = (Phase.CREATED, [])) ∧
    ∃ n, (taskRun setup loop Phase.CREATED evs).2 =
      (if setup ≠ NULL ∧ Event.resume ∈ evs then [Invoke.setup setup] else [])
        ++ List.replicate n (Invoke.loop loop) := by
  induction evs with
  | nil => exact ⟨fun _ => rfl, 0, by simp [taskRun]⟩
  | cons e es ih =>
    obtain ⟨h0, n, h2⟩ := ih
    cases e with
    | ret =>
      refine ⟨?_, n, ?_⟩
      · intro hne
        have hes : Event.resume ∉ es := fun hm => hne (List.mem_cons_of_mem _ hm)
        simp only [taskRun, taskStep, h0 hes, List.nil_append]
      · have hmem : Event.resume ∈ Event.ret :: es ↔ Event.resume ∈ es := by simp
        simp only [taskRun, taskStep, h2, List.nil_append, hmem]
    | resume =>
      refine ⟨fun hne => absurd (List.mem_cons_self _ _) hne, ?_⟩
      by_cases hs : setup ≠ NULL
      · obtain ⟨m, hm⟩ := taskRun_setup setup loop es
        refine ⟨m, ?_⟩
        simp only [taskRun, taskStep, if_pos hs, hm]
        simp [hs]
      · obtain ⟨m, hm⟩ := (taskRun_loop setup loop es).2
        refine ⟨m + 1, ?_⟩
        simp only [taskRun, taskStep, if_neg hs, hm]
        simp [hs, List.replicate_succ]

/-- C7: for a task created by `init(setup, loop, _)` and any sequence of
resumes and returns, the calls made are: `setup` once, first, when `setup` is
not null and the task was resumed at all, followed only by calls of `loop`.
The first resume calls `setup` (phase `SETUP`) when it is not null and `loop`
(phase `LOOP`) when it is null; a task never resumed calls nothing; and from
phase `LOOP` every sequence of events ends in `LOOP` and calls only `loop`. -/
theorem task_body_phases (setup loop : func_t) (evs : List Event) :
    (∃ n, (taskRun setup loop Phase.CREATED evs).2 =
      (if setup ≠ NULL ∧ Event.resume ∈ evs then [Invoke.setup setup] else [])
        ++ List.replicate n (Invoke.loop loop)) ∧
    (taskRun setup loop Phase.CREATED evs).2.count (Invoke.setup setup)
      = (if setup ≠ NULL ∧ Event.resume ∈ evs then 1 else 0) ∧
    (Event.resume ∉ evs → taskRun setup loop Phase.CREATED evs = (Phase.CREATED, [])) ∧
    taskStep setup loop Phase.CREATED Event.resume
      = (if setup ≠ NULL then (Phase.SETUP, [Invoke.setup setup])
         else (Phase.LOOP, [Invoke.loop loop])) ∧
    (∀ evs2, taskRun setup loop Phase.SETUP (Event.ret :: evs2)
      = ((taskRun setup loop Phase.LOOP evs2).1,
         Invoke.loop loop :: (taskRun setup loop Phase.LOOP evs2).2)) ∧
    (∀ evs2, (taskRun setup loop Phase.LOOP evs2).1 = Phase.LOOP ∧
      ∀ i ∈ (taskRun setup loop Phase.LOOP evs2).2, i = Invoke.loop loop) := by
  obtain ⟨h0, n, h2⟩ := taskRun_created setup loop evs
  refine ⟨⟨n, h2⟩, ?_, h0, rfl, fun _ => rfl, ?_⟩
  · rw [h2, List.count_append]
    have hz : List.count (Invoke.setup setup) (List.replicate n (Invoke.loop loop)) = 0 := by
      rw [List.count_eq_zero]
      intro hm
      exact Invoke.noConfusion (List.eq_of_mem_replicate hm)
    rw [hz]
    split <;> simp
  · intro evs2
    obtain ⟨h1, m, hm⟩ := taskRun_loop setup loop evs2
    refine ⟨h1, ?_⟩
    intro i hi
    rw [hm] at hi
    exact List.eq_of_mem_replicate hi

end Scheduler
